import Mathlib

/-!
Verification of the HelloAPI normalization core.

This file gives a shallow embedding, in Lean 4, of the two normalizers of the
HelloAPI repository:

* the structured OpenAPI/Swagger normalizer (`parseOpenApiSpec` and its
  helpers, from the openapi parser module), and
* the heuristic free-text normalizer (`parseTextDocs` and its helpers, from
  `src/app/src/lib/parsers/text-parser.ts`),

together with theorems settling the frozen claims about them.

Modelling conventions:

* A decoded JavaScript document value is modelled by the inductive type `Json`
  (JSON.parse / js-yaml never produce `undefined` inside a document; a JS
  `undefined` at an access site is modelled by `Option.none`).
* `JSON.parse` and `yaml.load` are external libraries; the structured entry
  point is therefore parameterised by their results (`Option Json`, where
  `some d` means "decoding succeeded and produced `d`").
* JS property access, truthiness, `Object.keys` / `Object.values` /
  `Object.entries` (including the index entries of arrays and strings),
  numeric indexing, `length` reads, iteration/spread and string coercion are
  modelled by the `Json.get`, `Json.truthy`, `jsKeys`, `jsValues`,
  `jsEntries`, `jsIndex`, `jsLength`, `jsSpreadElems` and `Json.toStr`
  helpers below.
* The sites where the JS runtime throws a `TypeError` on a degenerate
  document — reading a property of `null` (a `null` path item, parameter
  entry, response value, schema property, tag definition, `servers[0]` or
  first security-scheme value), calling a string method on a non-string, or
  iterating a non-iterable — are captured by the `structuredCrashes`
  analysis, which mirrors each function of the source; `parseOpenApiDocE`
  combines it with the pure `parseOpenApiDoc` into the observable behaviour
  of the pipeline (`JsError.typeError` or a returned `ParseResult`).
* JS regular-expression scans of the text parser are modelled by explicit
  left-to-right scanners over `List Char` implementing the same
  leftmost-match, alternation-order and greediness behaviour.
-/

set_option autoImplicit false

namespace HelloAPI

mutual

/-- Model of a decoded JavaScript (JSON/YAML) document value.  The array and
object payloads are the mutually-inductive `JsonList` / `JsonFields` so that
the recursive JS helpers below are structurally recursive (and therefore
kernel-evaluable); `JsonList.toList` / `JsonFields.toList` recover the plain
list views used everywhere else. -/
inductive Json where
  | null : Json
  | bool (b : Bool) : Json
  | num (n : Int) : Json
  | str (s : String) : Json
  | arr (elems : JsonList) : Json
  | obj (fields : JsonFields) : Json

/-- A sequence of document values (a JS array payload). -/
inductive JsonList where
  | nil : JsonList
  | cons (hd : Json) (tl : JsonList) : JsonList

/-- A sequence of key/value fields (a JS object payload, in insertion
order). -/
inductive JsonFields where
  | nil : JsonFields
  | cons (key : String) (val : Json) (tl : JsonFields) : JsonFields

end

/-- The plain-list view of a `JsonList`. -/
def JsonList.toList : JsonList → List Json
  | .nil => []
  | .cons x rest => x :: rest.toList

/-- The plain-list view of a `JsonFields`. -/
def JsonFields.toList : JsonFields → List (String × Json)
  | .nil => []
  | .cons k v rest => (k, v) :: rest.toList

/-- Build a `JsonList` from a plain list (used to write document literals). -/
def JsonList.ofList : List Json → JsonList
  | [] => .nil
  | x :: rest => .cons x (JsonList.ofList rest)

/-- Build a `JsonFields` from a plain list (used to write document
literals). -/
def JsonFields.ofList : List (String × Json) → JsonFields
  | [] => .nil
  | (k, v) :: rest => .cons k v (JsonFields.ofList rest)

/-- A JS array document literal. -/
def jarr (l : List Json) : Json := .arr (JsonList.ofList l)

/-- A JS object document literal. -/
def jobj (l : List (String × Json)) : Json := .obj (JsonFields.ofList l)

/-- First-match association lookup, as JS property access on a decoded
document object (JSON.parse deduplicates keys, so documents have no
duplicate keys and first-match agrees with JS). -/
def lookupField : List (String × Json) → String → Option Json
  | [], _ => none
  | (k, v) :: rest, key => if k = key then some v else lookupField rest key

/-- JS property access `v[key]`: a field of an object, `undefined` (`none`)
otherwise. -/
def Json.get : Json → String → Option Json
  | .obj kvs, key => lookupField kvs.toList key
  | _, _ => none

/-- JS truthiness of a document value (`[]` and `{}` are truthy). -/
def Json.truthy : Json → Bool
  | .null => false
  | .bool b => b
  | .num n => n != 0
  | .str s => s ≠ ""
  | .arr _ => true
  | .obj _ => true

/-- JS truthiness of a possibly-`undefined` value. -/
def jsTruthyOpt : Option Json → Bool
  | some v => v.truthy
  | none => false

/-- The `Object.entries` of a document value: the fields of an object, the
index entries of an array, the per-character index entries of a string
(each value a one-character string), and nothing for the primitives.
(`Object.entries(null)` throws in JS, but every call site guards with
`|| {}` or a truthiness test, so `[]` is never observed for `null`.) -/
def jsEntries : Json → List (String × Json)
  | .obj kvs => kvs.toList
  | .arr l => (l.toList.enum).map (fun p => (toString p.1, p.2))
  | .str s => (s.data.enum).map (fun p => (toString p.1, Json.str (String.mk [p.2])))
  | _ => []

/-- The `Object.keys` on a document value. -/
def jsKeys (v : Json) : List String := (jsEntries v).map Prod.fst

/-- The `Object.values` on a document value. -/
def jsValues (v : Json) : List Json := (jsEntries v).map Prod.snd

/-- The elements of a value used as an array; non-arrays give `[]`. -/
def jsArrElems : Option Json → List Json
  | some (.arr l) => l.toList
  | _ => []

/-- JS indexing `v[i]` with a numeric index: an array element, a
one-character string for a string, the `toString i` property of an object,
`undefined` otherwise. -/
def jsIndex : Json → Nat → Option Json
  | .arr l, i => l.toList.get? i
  | .str s, i => (s.data.get? i).map (fun c => Json.str (String.mk [c]))
  | .obj kvs, i => lookupField kvs.toList (toString i)
  | _, _ => none

/-- JS `v.length`: a number for arrays and strings, the `length` property
for objects, `undefined` otherwise. -/
def jsLength : Json → Option Json
  | .arr l => some (.num l.toList.length)
  | .str s => some (.num s.data.length)
  | .obj kvs => lookupField kvs.toList "length"
  | _ => none

/-- The spread / `for..of` elements of `x || []`: array elements, the
characters of a string (strings are iterable, each character a
one-character string), nothing for falsy values.  A truthy non-iterable
value makes the JS spread throw — captured by `spreadCrashes`, never by
this function. -/
def jsSpreadElems : Option Json → List Json
  | some (.arr l) => l.toList
  | some (.str s) => s.data.map (fun c => Json.str (String.mk [c]))
  | _ => []

/-- Whether spreading (or `for..of`-iterating) `x || []` throws: exactly for
a truthy value that is neither an array nor a string. -/
def spreadCrashes : Option Json → Bool
  | some (.arr _) => false
  | some (.str _) => false
  | some v => v.truthy
  | none => false

mutual

/-- JS `ToString` of a document value (template-literal / `String(...)`
coercion). -/
def Json.toStr : Json → String
  | .null => "null"
  | .bool b => if b then "true" else "false"
  | .num n => toString n
  | .str s => s
  | .arr l => Json.listToStr l
  | .obj _ => "[object Object]"

/-- JS `Array.prototype.toString`: elements joined by commas, `null`
elements rendering as the empty string. -/
def Json.listToStr : JsonList → String
  | .nil => ""
  | .cons x .nil =>
    (match x with
      | .null => ""
      | v => Json.toStr v)
  | .cons x rest =>
    (match x with
      | .null => ""
      | v => Json.toStr v) ++ "," ++ Json.listToStr rest

end

mutual

/-- A structural size measure on document values, used as recursion fuel by
`flattenSchema` (whose recursion descends through `Json.get` results and is
therefore not structural). -/
def Json.size : Json → Nat
  | .arr l => 1 + JsonList.size l
  | .obj kvs => 1 + JsonFields.size kvs
  | _ => 1

/-- Size of an array payload. -/
def JsonList.size : JsonList → Nat
  | .nil => 1
  | .cons x rest => 1 + Json.size x + JsonList.size rest

/-- Size of an object payload. -/
def JsonFields.size : JsonFields → Nat
  | .nil => 1
  | .cons _ v rest => 1 + Json.size v + JsonFields.size rest

end

/-- Whitespace for the JS numeric conversion of strings. -/
def jsNumWs (c : Char) : Bool :=
  c = ' ' || c = Char.ofNat 9 || c = Char.ofNat 10 || c = Char.ofNat 13 ||
  c = Char.ofNat 11 || c = Char.ofNat 12 || c = Char.ofNat 0xA0

/-- Whether an unsigned JS numeric literal (decimal digits with an optional
fraction, or `Infinity`) denotes a positive number.  (Hexadecimal and
exponent notation are outside the fragment the documents use; a `length`
value is a number in every non-adversarial document.) -/
def digitsPos (l : List Char) : Bool :=
  if l = "Infinity".data then true
  else
    let ip := l.takeWhile Char.isDigit
    let rest := l.drop ip.length
    match rest with
    | [] => !ip.isEmpty && ip.any (fun c => c ≠ '0')
    | '.' :: fp =>
      fp.all Char.isDigit && !(ip.isEmpty && fp.isEmpty) &&
        (ip.any (fun c => c ≠ '0') || fp.any (fun c => c ≠ '0'))
    | _ => false

/-- Whether JS `ToNumber` of the string is positive (after whitespace trim
and an optional sign). -/
def strToNumberPos (s : String) : Bool :=
  let t := (s.data.dropWhile jsNumWs).reverse.dropWhile jsNumWs |>.reverse
  match t with
  | [] => false
  | '-' :: _ => false
  | '+' :: rest => digitsPos rest
  | rest => digitsPos rest

/-- JS `x > 0` on a possibly-`undefined` value (`ToPrimitive` turns arrays
into their joined string and plain objects into the string
"[object Object]", both of which convert to a number — usually `NaN`). -/
def jsGtZero : Option Json → Bool
  | some (.num n) => 0 < n
  | some (.bool b) => b
  | some (.str s) => strToNumberPos s
  | some (.arr l) => strToNumberPos (Json.listToStr l)
  | _ => false

/-- JS template rendering of a possibly-`undefined` value. -/
def jsTmpl : Option Json → String
  | some v => v.toStr
  | none => "undefined"

/-- JS `x || dflt` for a string-producing site: the coerced value when truthy,
the default otherwise. -/
def jsStrOr (o : Option Json) (dflt : String) : String :=
  match o with
  | some v => if v.truthy then v.toStr else dflt
  | none => dflt

/-- JS `x || y` on possibly-`undefined` document values. -/
def jsOrOpt (a b : Option Json) : Option Json :=
  if jsTruthyOpt a then a else b

/-- JS `String.prototype.toLowerCase` on the ASCII fragment the parsers use
(kernel-evaluable, unlike `String.toLower`). -/
def strLower (s : String) : String := String.mk (s.data.map Char.toLower)

/-- JS `s || dflt` where `s` is a string-or-missing value. -/
def strOr (o : Option String) (dflt : String) : String :=
  match o with
  | some s => if s = "" then dflt else s
  | none => dflt

/-- JS `(x as unknown[])?.length` truthiness, as used for the per-operation
`security` arrays. -/
def jsLenTruthy : Option Json → Bool
  | some (.arr l) => !l.toList.isEmpty
  | some (.str s) => s ≠ ""
  | _ => false

/-! ## The canonical data model (`src/app/src/lib/types.ts`)

Optional TS fields become `Option`; fields the TS type declares as `string`
but the parsers may fill with raw document values keep the raw `Json` where
that is what the source stores (e.g. `operationId`). -/

/-- The `Parameter` of `types.ts`. The `in` location keeps the raw string of the
document (`path | query | header | cookie` in well-typed documents). -/
structure Parameter where
  name : String
  inLoc : String
  required : Bool
  description : String
  type : String
  dflt : Option String
  enum : Option Json
  exampleVal : Option String

/-- The `SchemaField` of `types.ts`. -/
structure SchemaField where
  name : String
  type : String
  required : Bool
  description : String
  dflt : Option Json
  enum : Option Json
  exampleVal : Option Json
  nested : Option (List SchemaField)

/-- The `RequestBody` of `types.ts`. -/
structure RequestBody where
  required : Bool
  contentType : String
  schema : List SchemaField
  exampleVal : Option Json

/-- The `ResponseDef` of `types.ts` (`schema` is optional: the text parser leaves
it out, the structured parser always sets it). -/
structure ResponseDef where
  statusCode : String
  description : String
  schema : Option (List SchemaField)
  exampleVal : Option Json

/-- The `AuthScheme` of `types.ts`; `type` is one of
`apiKey | bearer | basic | oauth2 | none | unknown`. -/
structure AuthScheme where
  type : String
  headerName : Option String
  queryParamName : Option String
  scheme : Option String
  description : Option String
  flows : Option Json

/-- The `Endpoint` of `types.ts`. -/
structure Endpoint where
  id : String
  method : String
  path : String
  summary : String
  description : String
  tag : String
  operationId : Option Json
  parameters : List Parameter
  requestBody : Option RequestBody
  responses : List ResponseDef
  auth : Bool
  deprecated : Bool

/-- The `TagGroup` of `types.ts`. -/
structure TagGroup where
  name : String
  description : Option String
  endpointIds : List String

/-- The `PaginationHint` of `types.ts`. -/
structure PaginationHint where
  type : String
  parameters : List String
  description : String

/-- The `RateLimitHint` of `types.ts`. -/
structure RateLimitHint where
  statusCode : Int
  retryHeader : Option String
  description : String

/-- The `ApiSpec` of `types.ts`. -/
structure ApiSpec where
  title : String
  description : String
  version : String
  baseUrl : String
  auth : AuthScheme
  endpoints : List Endpoint
  tags : List TagGroup
  paginationHints : List PaginationHint
  rateLimitHints : List RateLimitHint
  sourceType : String

/-- The `ParseResult` of `types.ts`. -/
structure ParseResult where
  spec : ApiSpec
  warnings : List String
  todos : List String

/-! ## The structured OpenAPI/Swagger normalizer -/

/-- Substring containment on character lists (JS `String.prototype.includes`). -/
def charsContain (needle : List Char) : List Char → Bool
  | [] => needle.isEmpty
  | c :: cs => needle.isPrefixOf (c :: cs) || charsContain needle cs

namespace OpenApi

/-- The check `schema.type === "object"` of the source (strict equality with the raw document value; the source uses single quotes). -/
def typeIsObject (j : Json) : Bool :=
  match j.get "type" with
  | some (.str s) => s = "object"
  | _ => false

/-- The check `schema.type === "array"` used by `flattenSchema`. -/
def typeIsArray (j : Json) : Bool :=
  match j.get "type" with
  | some (.str s) => s = "array"
  | _ => false

/-- The call `required.includes(name)` of `flattenSchema`, with
`required := schema.required || []`: `Array.prototype.includes` (strict
equality, which can only make a string element equal the string `name`) on
arrays, and `String.prototype.includes` (substring) on strings.  Every other
truthy `required` value has no `.includes` method and makes the source throw
— captured by `flattenCrashesF`; `false` is the unreachable fallback here. -/
def requiredIncludes (required : Option Json) (name : String) : Bool :=
  match required with
  | some (.arr l) => l.toList.any fun r =>
      match r with
      | .str s => s = name
      | _ => false
  | some (.str s) => charsContain name.data s.data
  | _ => false

mutual

/-- Fuelled `flattenSchema` of the openapi parser: an object-like schema
expands its properties, an array schema yields one synthetic `items` field,
anything else one synthetic `value` field.  Falsy schemas (including the
`undefined` passed through `flattenSchemaO`) give `[]`.  The fuel is
structural bookkeeping only (callers pass `Json.size`, which always suffices,
so the fuel-exhausted arm is unreachable). -/
def flattenSchemaF : Nat → Json → List SchemaField
  | 0, _ => []
  | Nat.succ fuel, j =>
    if ¬ j.truthy then []
    else if typeIsObject j || jsTruthyOpt (j.get "properties") then
      let required := j.get "required"
      match j.get "properties" with
      | some p => flattenFieldsF fuel required (jsEntries (if p.truthy then p else .obj .nil))
      | none => []
    else if typeIsArray j then
      [{ name := "items", type := "array", required := false,
         description := jsStrOr (j.get "description") "Array items",
         dflt := none, enum := none, exampleVal := none,
         nested := some (match j.get "items" with
           | some items => flattenSchemaF fuel items
           | none => []) }]
    else
      [{ name := "value", type := jsStrOr (j.get "type") "string", required := false,
         description := jsStrOr (j.get "description") "", dflt := none, enum := none,
         exampleVal := none, nested := none }]

/-- Fuelled `Object.entries(properties).map(...)` body of `flattenSchema`. -/
def flattenFieldsF : Nat → Option Json → List (String × Json) → List SchemaField
  | 0, _, _ => []
  | Nat.succ _, _, [] => []
  | Nat.succ fuel, required, (name, prop) :: rest =>
    { name := name,
      type := jsStrOr (prop.get "type") "string",
      required := requiredIncludes required name,
      description := jsStrOr (prop.get "description") "",
      dflt := prop.get "default",
      enum := prop.get "enum",
      exampleVal := prop.get "example",
      nested := if typeIsObject prop || jsTruthyOpt (prop.get "properties")
        then some (flattenSchemaF fuel prop) else none }
      :: flattenFieldsF fuel required rest

end

/-- The `flattenSchema` of the openapi parser. -/
def flattenSchema (j : Json) : List SchemaField := flattenSchemaF j.size j

/-- The `flattenSchema` applied to a possibly-`undefined` value. -/
def flattenSchemaO (o : Option Json) : List SchemaField :=
  match o with
  | some j => flattenSchema j
  | none => []

/-- The `resolveParamType` of the openapi parser. -/
def resolveParamType (p : Json) : String :=
  if jsTruthyOpt (p.get "type") then jsTmpl (p.get "type")
  else match p.get "schema" with
    | some schema =>
      if schema.truthy then jsStrOr (schema.get "type") "string" else "string"
    | none => "string"

/-- The `extractParameters` of the openapi parser: path-item-level parameters
concatenated with operation-level parameters, mapped to the canonical shape. -/
def extractParameters (op : Json) (pathItem : Json) : List Parameter :=
  let raw := jsSpreadElems (pathItem.get "parameters") ++ jsSpreadElems (op.get "parameters")
  raw.map fun p =>
    { name := jsTmpl (p.get "name"),
      inLoc := jsTmpl (p.get "in"),
      required := jsTruthyOpt (p.get "required"),
      description := jsStrOr (p.get "description") "",
      type := resolveParamType p,
      dflt := (p.get "default").map Json.toStr,
      enum := p.get "enum",
      exampleVal := (p.get "example").map Json.toStr }

/-- The `extractRequestBody` of the openapi parser.  In the Swagger-2 branch
`.filter` is an array method, so `jsArrElems` is the right view: a truthy
non-array `op.parameters` makes the source throw instead (captured by
`reqBodyCrashes`), and the `[]` fallback here is only reached for falsy
values, as in the source's `|| []`. -/
def extractRequestBody (op : Json) (isSwagger2 : Bool) : Option RequestBody :=
  if isSwagger2 then
    match (jsArrElems (op.get "parameters")).filter
        (fun p => match p.get "in" with | some (.str s) => s = "body" | _ => false) with
    | [] => none
    | bp :: _ =>
      let schema := bp.get "schema"
      some { required := jsTruthyOpt (bp.get "required"),
             contentType := "application/json",
             schema := flattenSchemaO schema,
             exampleVal := jsOrOpt (match schema with
               | some s => s.get "example"
               | none => none) none }
  else
    match op.get "requestBody" with
    | none => none
    | some rb =>
      if ¬ rb.truthy then none
      else match rb.get "content" with
        | none => none
        | some content =>
          if ¬ content.truthy then none
          else
            let keys := jsKeys content
            let jsonContent := jsOrOpt (content.get "application/json")
              (match keys.head? with
                | some k => content.get k
                | none => none)
            match jsonContent with
            | none => none
            | some jc =>
              if ¬ jc.truthy then none
              else
                some { required := jsTruthyOpt (rb.get "required"),
                       contentType := keys.headD "",
                       schema := flattenSchemaO (jc.get "schema"),
                       exampleVal := jsOrOpt (jc.get "example")
                         (match jc.get "schema" with
                           | some s => s.get "example"
                           | none => none) }

/-- JS strict equality `o === s` of a possibly-`undefined` document value with
a string literal. -/
def strEqOpt (o : Option Json) (s : String) : Bool :=
  match o with
  | some (.str t) => t = s
  | _ => false

/-- The `Object.keys` through a possibly-`undefined` value. -/
def jsKeysO : Option Json → List String
  | some v => jsKeys v
  | none => []

/-- The `Object.values` through a possibly-`undefined` value. -/
def jsValuesO : Option Json → List Json
  | some v => jsValues v
  | none => []

/-- The `Object.entries` through a possibly-`undefined` value. -/
def jsEntriesO : Option Json → List (String × Json)
  | some v => jsEntries v
  | none => []

/-- The `extractResponses` of the openapi parser (the `warnings` argument of the
source is never written to, so it is dropped here). -/
def extractResponses (op : Json) : List ResponseDef :=
  (jsEntries (match op.get "responses" with
    | some r => if r.truthy then r else .obj .nil
    | none => .obj .nil)).map fun (statusCode, resp) =>
    -- `schema` starts as `[]`; the `resp.schema` branch is only taken when
    -- `resp.content` is falsy (`else if` in the source).
    let noContent : List SchemaField × Option Json :=
      (if jsTruthyOpt (resp.get "schema") then flattenSchemaO (resp.get "schema")
       else [], none)
    let pair : List SchemaField × Option Json :=
      match resp.get "content" with
      | some content =>
        if content.truthy then
          let jsonContent := jsOrOpt (content.get "application/json")
            (match (jsKeys content).head? with
              | some k => content.get k
              | none => none)
          match jsonContent with
          | some jc =>
            if jc.truthy then
              (flattenSchemaO (jc.get "schema"),
               jsOrOpt (jc.get "example")
                 (match jc.get "schema" with
                   | some s => s.get "example"
                   | none => none))
            else ([], none)
          | none => ([], none)
        else noContent
      | none => noContent
    { statusCode := statusCode,
      description := jsStrOr (resp.get "description") "",
      schema := some pair.1,
      exampleVal := pair.2 }

/-- The `${schemes[0]}` of `extractBaseUrl`: the template rendering of index 0
of the declared `schemes` value (the first element of an array, the first
character of a string, the "0" property of an object, `undefined` otherwise),
and `https` when `schemes` is absent or falsy. -/
def scheme0 (doc : Json) : String :=
  match doc.get "schemes" with
  | none => "https"
  | some v => if ¬ v.truthy then "https" else jsTmpl (jsIndex v 0)

/-- The `extractBaseUrl` of the openapi parser.  Returns the raw JS value
(`none` models `null`/`undefined`): Swagger-2 composes
`schemes[0]://host + basePath` when `host` is truthy, OpenAPI-3 returns
`servers[0].url` verbatim when `servers` is truthy with `length > 0`.  (A
`null` or missing `servers[0]` makes the source throw at the `.url` read;
that path is captured by `baseUrlCrashes` and never reaches this value.) -/
def extractBaseUrl (doc : Json) (isSwagger2 : Bool) : Option Json :=
  if isSwagger2 then
    let host := doc.get "host"
    let basePath := jsStrOr (doc.get "basePath") ""
    if jsTruthyOpt host then
      some (.str (scheme0 doc ++ "://" ++ jsTmpl host ++ basePath))
    else none
  else
    match doc.get "servers" with
    | some v =>
      if v.truthy && jsGtZero (jsLength v) then
        match jsIndex v 0 with
        | some s0 => s0.get "url"
        | none => none
      else none
    | none => none

/-- The security-scheme container the structured parser consults:
`doc.securityDefinitions` for Swagger-2, `doc.components?.securitySchemes`
for OpenAPI-3. -/
def secDefsOf (doc : Json) (isSwagger2 : Bool) : Option Json :=
  if isSwagger2 then doc.get "securityDefinitions"
  else match doc.get "components" with
    | some c => c.get "securitySchemes"
    | none => none

/-- The `extractAuth` of the openapi parser.  Returns the scheme together with
the warnings it appends (one when no scheme is declared, none otherwise). -/
def extractAuth (doc : Json) (isSwagger2 : Bool) : AuthScheme × List String :=
  let secDefs := secDefsOf doc isSwagger2
  if !jsTruthyOpt secDefs || (jsKeysO secDefs).isEmpty then
    ({ type := "none", headerName := none, queryParamName := none, scheme := none,
       description := some "No authentication detected.", flows := none },
     ["No security schemes found — API might be public or auth docs are missing."])
  else
    let first := (jsValuesO secDefs).headD Json.null
    let schemeType := strLower (jsStrOr (first.get "type") "")
    if schemeType = "apikey" then
      ({ type := "apiKey",
         headerName := if strEqOpt (first.get "in") "header"
           then (first.get "name").map Json.toStr else none,
         queryParamName := if strEqOpt (first.get "in") "query"
           then (first.get "name").map Json.toStr else none,
         scheme := none,
         description := some (jsStrOr (first.get "description")
           ("API Key in " ++ jsTmpl (first.get "in") ++ ": " ++ jsTmpl (first.get "name"))),
         flows := none }, [])
    else if schemeType = "http" then
      let scheme := strLower (jsStrOr (first.get "scheme") "")
      if scheme = "bearer" then
        ({ type := "bearer", headerName := none, queryParamName := none,
           scheme := some "bearer",
           description := some (jsStrOr (first.get "description") "Bearer token authentication"),
           flows := none }, [])
      else
        ({ type := "basic", headerName := none, queryParamName := none,
           scheme := some "basic",
           description := some (jsStrOr (first.get "description") "Basic authentication"),
           flows := none }, [])
    else if schemeType = "oauth2" then
      ({ type := "oauth2", headerName := none, queryParamName := none, scheme := none,
         description := some (jsStrOr (first.get "description") "OAuth 2.0 authentication"),
         flows := first.get "flows" }, [])
    else
      ({ type := "unknown", headerName := none, queryParamName := none, scheme := none,
         description := some ("Detected scheme type: " ++ schemeType), flows := none }, [])

/-- The five supported HTTP methods, in the source's iteration order. -/
def httpMethods : List String := ["GET", "POST", "PUT", "PATCH", "DELETE"]

/-- The call `path.replace(...)` of the structured endpoint id fallback:
brace and slash characters become underscores. -/
def replaceIdChars (path : String) : String :=
  String.mk (path.data.map fun c =>
    if c = Char.ofNat 123 || c = Char.ofNat 125 || c = '/' then '_' else c)

/-- The single-`Endpoint` construction of the structured `extractEndpoints`
loop body. -/
def mkEndpoint (doc pathItem op : Json) (path method : String)
    (isSwagger2 : Bool) : Endpoint :=
  { id := jsStrOr (op.get "operationId") (method ++ "_" ++ replaceIdChars path),
    method := method,
    path := path,
    summary := jsStrOr (op.get "summary") "",
    description := jsStrOr (op.get "description") (jsStrOr (op.get "summary") ""),
    tag := (match op.get "tags" with
      | some v =>
        if v.truthy then
          (match jsIndex v 0 with
            | some e => if e.truthy then e.toStr else "default"
            | none => "default")
        else "default"
      | none => "default"),
    operationId := op.get "operationId",
    parameters := extractParameters op pathItem,
    requestBody := extractRequestBody op isSwagger2,
    responses := extractResponses op,
    auth := jsLenTruthy (op.get "security") || jsLenTruthy (doc.get "security"),
    deprecated := jsTruthyOpt (op.get "deprecated") }

/-- The `extractEndpoints` of the openapi parser: one endpoint per declared path
item and per supported method whose operation value is truthy.  No
deduplication of any kind is performed. -/
def extractEndpoints (doc : Json) (isSwagger2 : Bool) : List Endpoint :=
  (jsEntriesO (doc.get "paths")).flatMap fun pe =>
    httpMethods.filterMap fun method =>
      match (pe.2).get (strLower method) with
      | some op => if op.truthy then some (mkEndpoint doc pe.2 op pe.1 method isSwagger2) else none
      | none => none

/-- The `tagMap.set(name, group)` of `buildTagGroups` (JS `Map.set`: replaces the
value but keeps the original insertion position). -/
def setTagInit (m : List (String × TagGroup)) (k : String) (v : TagGroup) :
    List (String × TagGroup) :=
  if (m.lookup k).isSome then m.map fun p => if p.1 = k then (k, v) else p
  else m ++ [(k, v)]

/-- The per-endpoint step of `buildTagGroups`: create the group on first
sight of the tag, then push the endpoint id. -/
def pushEndpointId (m : List (String × TagGroup)) (k : String) (epId : String) :
    List (String × TagGroup) :=
  if (m.lookup k).isSome then
    m.map fun p =>
      if p.1 = k then (p.1, { p.2 with endpointIds := p.2.endpointIds ++ [epId] }) else p
  else m ++ [(k, { name := k, description := none, endpointIds := [epId] })]

/-- The `buildTagGroups` of the openapi parser. -/
def buildTagGroups (doc : Json) (endpoints : List Endpoint) : List TagGroup :=
  let tagDefs := jsSpreadElems (doc.get "tags")
  let init := tagDefs.foldl (fun m td =>
    let nm := jsTmpl (td.get "name")
    setTagInit m nm { name := nm, description := (td.get "description").map Json.toStr,
                      endpointIds := [] }) []
  (endpoints.foldl (fun m ep => pushEndpointId m ep.tag ep.id) init).map Prod.snd

/-- The `PAGINATION_KEYWORDS` of the openapi parser. -/
def PAGINATION_KEYWORDS : List String :=
  ["page", "limit", "offset", "cursor", "after", "before", "per_page", "pageSize", "page_size"]

/-- The nested parameter loop of `detectPagination`, over the flattened
parameter sequence, carrying the `seen` lowercase-name set. -/
def paginationFold : List Parameter → List String → List PaginationHint
  | [], _ => []
  | p :: rest, seen =>
    let lowerName := strLower p.name
    if PAGINATION_KEYWORDS.contains lowerName && !seen.contains lowerName then
      { type := if ["cursor", "after", "before"].contains lowerName then "cursor"
          else if lowerName = "offset" then "offset" else "page",
        parameters := [p.name],
        description := if p.description ≠ "" then p.description
          else "Pagination parameter: " ++ p.name }
        :: paginationFold rest (lowerName :: seen)
    else paginationFold rest seen

/-- The `detectPagination` of the openapi parser. -/
def detectPagination (endpoints : List Endpoint) : List PaginationHint :=
  paginationFold (endpoints.flatMap (·.parameters)) []

/-- The `detectRateLimits` of the openapi parser: the first response with status
code `"429"` anywhere yields a single hint and stops the scan. -/
def detectRateLimits : List Endpoint → List RateLimitHint
  | [] => []
  | ep :: rest =>
    match ep.responses.find? (fun r => r.statusCode == "429") with
    | some r =>
      [{ statusCode := 429, retryHeader := some "Retry-After",
         description := if r.description ≠ "" then r.description
           else "Rate limit exceeded — wait and retry." }]
    | none => detectRateLimits rest

/-- The body of `parseOpenApiSpec` after a successful decode of a non-`null`
document value. -/
def parseOpenApiDoc (doc : Json) : ParseResult :=
  let isSwagger2 := jsTruthyOpt (doc.get "swagger")
  let info := match doc.get "info" with
    | some v => if v.truthy then v else .obj .nil
    | none => .obj .nil
  let baseUrl := extractBaseUrl doc isSwagger2
  let todos := if jsTruthyOpt baseUrl then []
    else ["TODO: Base URL could not be determined — please set it manually."]
  let authW := extractAuth doc isSwagger2
  let endpoints := extractEndpoints doc isSwagger2
  { spec :=
      { title := jsStrOr (info.get "title") "Untitled API",
        description := jsStrOr (info.get "description") "",
        version := jsStrOr (info.get "version") "1.0.0",
        baseUrl := jsStrOr baseUrl "https://api.example.com",
        auth := authW.1,
        endpoints := endpoints,
        tags := buildTagGroups doc endpoints,
        paginationHints := detectPagination endpoints,
        rateLimitHints := detectRateLimits endpoints,
        sourceType := "openapi" },
    warnings := authW.2,
    todos := todos }

/-! ### TypeError analysis of the structured pipeline

On a degenerate document several reads of the source hit a property of
`null` (or call an array method on a value that lacks it) and the JS runtime
throws a `TypeError` instead of returning a `ParseResult`.  The predicates
below mirror each function of the source and decide whether its reads throw
on the given document.  All such throws collapse into the single
`JsError.typeError`, so the order in which the source would hit them is
immaterial. -/

/-- Whether `(x || []).includes(...)` throws: exactly for a truthy value that
is neither an array nor a string (both of which carry an `includes`
method). -/
def includesCrashes : Option Json → Bool
  | some (.arr _) => false
  | some (.str _) => false
  | some v => v.truthy
  | none => false

/-- Fuelled crash analysis of `flattenSchema(j)`: a `null` property value
(the read `prop.type`, line 214), a truthy `required` with no `.includes`
method reached by a nonempty property list (line 215), or a crash inside a
nested flatten.  The fuel mirrors `flattenSchemaF`; `Json.size j` always
suffices. -/
def flattenCrashesF : Nat → Json → Bool
  | 0, _ => false
  | Nat.succ fuel, j =>
    if ¬ j.truthy then false
    else if typeIsObject j || jsTruthyOpt (j.get "properties") then
      let entries := jsEntries (match j.get "properties" with
        | some p => if p.truthy then p else .obj .nil
        | none => .obj .nil)
      (!entries.isEmpty && includesCrashes (j.get "required")) ||
        entries.any (fun e =>
          match e.2 with
          | .null => true
          | prop =>
            (typeIsObject prop || jsTruthyOpt (prop.get "properties")) &&
              flattenCrashesF fuel prop)
    else if typeIsArray j then
      match j.get "items" with
      | some items => flattenCrashesF fuel items
      | none => false
    else false

/-- Whether `extractParameters` throws: a spread of a truthy non-iterable
`parameters` value (lines 154-157), or a `null` element hitting the `p.name`
read (line 159). -/
def paramsCrashes (op pathItem : Json) : Bool :=
  spreadCrashes (pathItem.get "parameters") || spreadCrashes (op.get "parameters") ||
    (jsSpreadElems (pathItem.get "parameters") ++ jsSpreadElems (op.get "parameters")).any
      (fun p => match p with | .null => true | _ => false)

/-- Whether `extractRequestBody` throws.  Swagger-2: `.filter` called on a
truthy non-array `op.parameters` (line 179), a `null` element hitting the
`p.in` read of the filter callback, or a flatten crash on the body
parameter's schema.  OpenAPI-3: a flatten crash on the chosen content's
schema. -/
def reqBodyCrashes (op : Json) (isSwagger2 : Bool) : Bool :=
  if isSwagger2 then
    match op.get "parameters" with
    | some (.arr l) =>
      (l.toList.any fun p => match p with | .null => true | _ => false) ||
        (match l.toList.filter
            (fun p => match p.get "in" with | some (.str s) => s = "body" | _ => false) with
          | [] => false
          | bp :: _ =>
            match bp.get "schema" with
            | some sc => flattenCrashesF sc.size sc
            | none => false)
    | some v => v.truthy
    | none => false
  else
    match op.get "requestBody" with
    | none => false
    | some rb =>
      if ¬ rb.truthy then false
      else match rb.get "content" with
        | none => false
        | some content =>
          if ¬ content.truthy then false
          else
            match jsOrOpt (content.get "application/json")
                (match (jsKeys content).head? with
                  | some k => content.get k
                  | none => none) with
            | some jc =>
              if ¬ jc.truthy then false
              else match jc.get "schema" with
                | some sc => flattenCrashesF sc.size sc
                | none => false
            | none => false

/-- Whether `extractResponses` throws: a `null` response value hits the
`resp.content` read (line 250); otherwise a flatten crash on the content
schema, or on `resp.schema` in the content-less branch. -/
def respCrashes (op : Json) : Bool :=
  (jsEntries (match op.get "responses" with
    | some r => if r.truthy then r else .obj .nil
    | none => .obj .nil)).any fun e =>
    match e.2 with
    | .null => true
    | resp =>
      match resp.get "content" with
      | some content =>
        if content.truthy then
          match jsOrOpt (content.get "application/json")
              (match (jsKeys content).head? with
                | some k => content.get k
                | none => none) with
          | some jc =>
            jc.truthy &&
              (match jc.get "schema" with
                | some sc => flattenCrashesF sc.size sc
                | none => false)
          | none => false
        else
          match resp.get "schema" with
          | some sc => flattenCrashesF sc.size sc
          | none => false
      | none =>
        match resp.get "schema" with
        | some sc => flattenCrashesF sc.size sc
        | none => false

/-- Whether `extractEndpoints` throws: a `null` path item hits the
`pathItem[method.toLowerCase()]` read (line 119); per truthy operation, the
parameter, request-body and response extraction can throw in turn. -/
def endpointsCrashes (doc : Json) (isSwagger2 : Bool) : Bool :=
  (jsEntriesO (doc.get "paths")).any fun pe =>
    (match pe.2 with | .null => true | _ => false) ||
      httpMethods.any fun method =>
        match (pe.2).get (strLower method) with
        | some op => op.truthy &&
            (paramsCrashes op pe.2 || reqBodyCrashes op isSwagger2 || respCrashes op)
        | none => false

/-- Whether `extractBaseUrl` throws: OpenAPI-3 only, on the `.url` read of a
`null` or missing `servers[0]` once the `servers && servers.length > 0`
guard passed (line 65). -/
def baseUrlCrashes (doc : Json) (isSwagger2 : Bool) : Bool :=
  if isSwagger2 then false
  else match doc.get "servers" with
    | some v =>
      v.truthy && jsGtZero (jsLength v) &&
        (match jsIndex v 0 with
          | some .null => true
          | none => true
          | some _ => false)
    | none => false

/-- Whether `extractAuth` throws: the first value of a scheme container with
nonempty keys being `null` hits the `first.type` read (line 82); a truthy
non-string `first.type` (or, within the http branch, `first.scheme`) has no
`.toLowerCase` method (lines 82 and 93). -/
def authCrashes (doc : Json) (isSwagger2 : Bool) : Bool :=
  let secDefs := secDefsOf doc isSwagger2
  if !jsTruthyOpt secDefs || (jsKeysO secDefs).isEmpty then false
  else
    match (jsValuesO secDefs).headD Json.null with
    | .null => true
    | first =>
      (match first.get "type" with
        | some (.str _) => false
        | some t => t.truthy
        | none => false) ||
      (strLower (jsStrOr (first.get "type") "") = "http" &&
        (match first.get "scheme" with
          | some (.str _) => false
          | some sc => sc.truthy
          | none => false))

/-- Whether `buildTagGroups` throws: `for..of` over a truthy non-iterable
`doc.tags`, or a `null` tag definition hitting the `td.name` read
(line 276). -/
def tagsCrashes (doc : Json) : Bool :=
  spreadCrashes (doc.get "tags") ||
    (jsSpreadElems (doc.get "tags")).any
      (fun td => match td with | .null => true | _ => false)

/-- Whether `detectPagination` throws: some extracted parameter whose raw
`name` value is not a string (missing, `null`, or non-string) hits the
`p.name.toLowerCase()` call (line 299).  The parameters scanned are exactly
those `extractParameters` collects for each emitted endpoint. -/
def paginationCrashes (doc : Json) : Bool :=
  (jsEntriesO (doc.get "paths")).any fun pe =>
    httpMethods.any fun method =>
      match (pe.2).get (strLower method) with
      | some op => op.truthy &&
          (jsSpreadElems ((pe.2).get "parameters") ++ jsSpreadElems (op.get "parameters")).any
            (fun p => match p.get "name" with
              | some (.str _) => false
              | _ => true)
      | none => false

/-- Whether the structured pipeline throws a `TypeError` on a decoded
non-`null` document: the disjunction of the per-stage analyses.  (The
remaining stages — `detectRateLimits` and the final spec assembly — perform
no throwing reads.) -/
def structuredCrashes (doc : Json) : Bool :=
  let isSwagger2 := jsTruthyOpt (doc.get "swagger")
  baseUrlCrashes doc isSwagger2 || authCrashes doc isSwagger2 ||
    endpointsCrashes doc isSwagger2 || tagsCrashes doc || paginationCrashes doc

/-- The JS errors the structured entry point can raise: the explicit
`ParseError` thrown when both decoders fail, and the `TypeError` raised by the
runtime when the decoded document is `null`/`undefined` and `doc.swagger` is
read (line 24 of the parser), or when some later stage performs a throwing
read on a degenerate document (see `structuredCrashes`). -/
inductive JsError where
  | parseError (msg : String) : JsError
  | typeError : JsError

/-- The structured pipeline on a decoded non-`null` document with its
`TypeError` paths made explicit: on a document where some stage performs a
throwing read the run ends in the `typeError`; otherwise the pipeline runs
to completion and returns `parseOpenApiDoc doc`. -/
def parseOpenApiDocE (doc : Json) : Except JsError ParseResult :=
  if structuredCrashes doc then .error .typeError
  else .ok (parseOpenApiDoc doc)

/-- Running the structured pipeline on a decoded document value: reading
`doc.swagger` on a `null` document raises a `TypeError`; every other decoded
value flows through the crash-aware `parseOpenApiDocE`. -/
def runStructuredDoc (d : Json) : Except JsError ParseResult :=
  match d with
  | .null => .error .typeError
  | d => parseOpenApiDocE d

/-- The `parseOpenApiSpec`, parameterised by the results of the two external
decoders (`JSON.parse` first, `yaml.load` on its failure; `some d` means the
decoder succeeded and produced `d`; a `yaml.load` returning JS `undefined`
is modelled as `some Json.null`, which the pipeline treats identically). -/
def parseOpenApiSpecE (jsonResult yamlResult : Option Json) :
    Except JsError ParseResult :=
  match jsonResult with
  | some d => runStructuredDoc d
  | none =>
    match yamlResult with
    | some d => runStructuredDoc d
    | none => .error (.parseError "Could not parse input as JSON or YAML")

end OpenApi

/-! ## The heuristic free-text normalizer (`text-parser.ts`)

The JS regular expressions of the source are modelled by explicit scanners
over `List Char`.  Each scanner implements the JS semantics of its regex:
leftmost match, alternation tried in source order at each position, greedy
quantifiers (with backtracking only where a shorter munch could actually
succeed — the analysis is noted at each site). -/

namespace TextParser

/-- The backtick character (0x60). -/
def backtickChar : Char := Char.ofNat 96

/-- The single-quote character (0x27). -/
def squoteChar : Char := Char.ofNat 39

/-- The double-quote character (0x22). -/
def dquoteChar : Char := Char.ofNat 34

/-- The opening-brace character (0x7b). -/
def obraceChar : Char := Char.ofNat 123

/-- The closing-brace character (0x7d). -/
def cbraceChar : Char := Char.ofNat 125

/-- JS regex `\s` on the character fragment the parsers meet (ASCII
whitespace plus NBSP; the further Unicode space code points behave
identically and are immaterial to the claims). -/
def isSpace (c : Char) : Bool :=
  c = ' ' || c = '\t' || c = '\n' || c = '\r' ||
  c = Char.ofNat 11 || c = Char.ofNat 12 || c = Char.ofNat 0xA0

/-- JS regex `\w` (`[A-Za-z0-9_]`). -/
def isWordChar (c : Char) : Bool := c.isAlphanum || c = '_'

/-- Case-insensitive literal match at the head of `s`: returns the consumed
characters (original case) and the rest. -/
def matchCI : List Char → List Char → Option (List Char × List Char)
  | [], s => some ([], s)
  | _ :: _, [] => none
  | p :: ps, c :: cs =>
    if c.toLower = p.toLower then
      match matchCI ps cs with
      | some (m, rest) => some (c :: m, rest)
      | none => none
    else none

/-- Exact literal match at the head of `s`: returns the rest. -/
def matchExact (pat : List Char) (s : List Char) : Option (List Char) :=
  if pat.isPrefixOf s then some (s.drop pat.length) else none

/-- Leftmost-match scan: try `step` at every position from left to right
(also at the end position, as JS regex engines do), feeding it the previous
character for `^` / `\b` assertions. -/
def scanFirst {α : Type} (step : Option Char → List Char → Option α) :
    Option Char → List Char → Option α
  | prev, [] => step prev []
  | prev, c :: cs =>
    match step prev (c :: cs) with
    | some r => some r
    | none => scanFirst step (some c) cs

/-- All matches of a global (`/g`) regex, in order: `step` receives the
absolute index, the previous character and the suffix, and returns the match
value plus the number of characters consumed (JS `exec` resumes at the match
end, and advances one position after a failed attempt).  The fuel is
structural bookkeeping only; callers pass `length + 1`, which always
suffices since every pattern consumes at least one character. -/
def scanAll {α : Type} (step : Nat → Option Char → List Char → Option (α × Nat)) :
    Nat → Nat → Option Char → List Char → List α
  | 0, _, _, _ => []
  | Nat.succ _, idx, prev, [] =>
    match step idx prev [] with
    | some (a, _) => [a]
    | none => []
  | Nat.succ fuel, idx, prev, c :: cs =>
    match step idx prev (c :: cs) with
    | some (a, n) =>
      let n1 := max n 1
      a :: scanAll step fuel (idx + n1) (((c :: cs).take n1).getLast?) ((c :: cs).drop n1)
    | none => scanAll step fuel (idx + 1) (some c) cs

/-- Substring test (used for the JS `String.prototype.includes` calls). -/
def containsSub (pat : List Char) (s : List Char) : Bool :=
  (scanFirst (fun _ t => match matchExact pat t with
    | some _ => some ()
    | none => none) none s).isSome

/-- JS `split(sep)` on a character list. -/
def splitChar (sep : Char) : List Char → List (List Char)
  | [] => [[]]
  | c :: cs =>
    let r := splitChar sep cs
    if c = sep then [] :: r
    else match r with
      | h :: t => (c :: h) :: t
      | [] => [[c]]

/-- Trimmed view of a character list (JS `String.prototype.trim` on the
fragment the parsers meet). -/
def trimList (l : List Char) : List Char :=
  ((l.dropWhile isSpace).reverse.dropWhile isSpace).reverse

/-- JS `String.prototype.trim`. -/
def strTrim (s : String) : String := String.mk (trimList s.data)

/-- The trailing-slash strip of the base-URL extractor: remove every
slash at the end of the string. -/
def dropTrailingSlashes (l : List Char) : List Char :=
  (l.reverse.dropWhile (fun c => c = '/')).reverse

/-- The `capitalize` of the text parser: uppercase the first character. -/
def capitalize (s : List Char) : String :=
  match s with
  | [] => ""
  | c :: cs => String.mk (c.toUpper :: cs)

/-- The `HTTP_METHODS` of the text parser. -/
def HTTP_METHODS : List String := ["GET", "POST", "PUT", "PATCH", "DELETE"]

/-- Try a list of literal alternatives case-insensitively at the head of
`s`, in order; returns the (canonical) alternative that matched and the
rest. -/
def matchAltCI (s : List Char) : List String → Option (String × List Char)
  | [] => none
  | m :: ms =>
    match matchCI m.data s with
    | some (_, rest) => some (m, rest)
    | none => matchAltCI s ms

/-- Case-insensitive `(GET|POST|PUT|PATCH|DELETE)` alternation at the head of
`s` (the alternatives are mutually exclusive at any one position, so source
order is immaterial); returns the canonical uppercase method — the source
immediately applies `.toUpperCase()` to the capture — and the rest. -/
def matchMethodAt (s : List Char) : Option (String × List Char) :=
  matchAltCI s HTTP_METHODS

/-- The path character class `[a-zA-Z0-9_\-{}/:.]` of the endpoint regexes. -/
def isPathChar (c : Char) : Bool :=
  c.isAlphanum || c = '_' || c = '-' || c = obraceChar || c = cbraceChar ||
  c = '/' || c = ':' || c = '.'

/-- The `(\/[a-zA-Z0-9_\-{}/:.]+)` at the head of `s`: a slash followed by one or
more path characters (greedy); returns the matched path and the rest. -/
def matchPathAt : List Char → Option (List Char × List Char)
  | c :: cs =>
    if c = '/' then
      let content := cs.takeWhile isPathChar
      if content.isEmpty then none
      else some (c :: content, cs.drop content.length)
    else none
  | [] => none

/-- A `method + path` candidate found by one of the three endpoint regexes,
with the absolute index of its match (for context extraction). -/
structure PatCand where
  idx : Nat
  method : String
  path : String

/-- Pattern `\b(GET|POST|PUT|PATCH|DELETE)\s+(\/[a-zA-Z0-9_\-{}/:.]+)`: a
word boundary (the method starts with a word character, so the boundary holds
iff the previous character is absent or not a word character), the method,
one or more whitespace characters, then a path. -/
def step1 (idx : Nat) (prev : Option Char) (s : List Char) :
    Option (PatCand × Nat) :=
  if (match prev with | some c => isWordChar c | none => false) then none
  else match matchMethodAt s with
    | none => none
    | some (m, r1) =>
      let sp := r1.takeWhile isSpace
      if sp.isEmpty then none
      else match matchPathAt (r1.drop sp.length) with
        | none => none
        | some (_, r2) => some (⟨idx, m, String.mk
            ((r1.drop sp.length).take ((r1.length - sp.length) - r2.length))⟩,
            s.length - r2.length)

/-- Pattern `` `(METHOD)\s+(path)` `` (backtick-code-span form). -/
def step2 (idx : Nat) (_prev : Option Char) (s : List Char) :
    Option (PatCand × Nat) :=
  match s with
  | c :: cs =>
    if c ≠ backtickChar then none
    else match matchMethodAt cs with
      | none => none
      | some (m, r1) =>
        let sp := r1.takeWhile isSpace
        if sp.isEmpty then none
        else match matchPathAt (r1.drop sp.length) with
          | none => none
          | some (pathChars, r2) =>
            match r2 with
            | c2 :: _ =>
              if c2 = backtickChar then
                some (⟨idx, m, String.mk pathChars⟩, s.length - r2.length + 1)
              else none
            | [] => none
  | [] => none

/-- Pattern `\*\*(METHOD)\*\*\s+(path)` (bold-markdown form). -/
def step3 (idx : Nat) (_prev : Option Char) (s : List Char) :
    Option (PatCand × Nat) :=
  match s with
  | '*' :: '*' :: cs =>
    match matchMethodAt cs with
    | none => none
    | some (m, r1) =>
      match r1 with
      | '*' :: '*' :: r2 =>
        let sp := r2.takeWhile isSpace
        if sp.isEmpty then none
        else match matchPathAt (r2.drop sp.length) with
          | none => none
          | some (pathChars, r3) =>
            some (⟨idx, m, String.mk pathChars⟩, s.length - r3.length)
      | _ => none
  | _ => none

/-- The URL pattern of the curl regex at the head of `s`: a
case-insensitive `http` scheme, an optional `s`, `://`, then one or more
characters that are neither whitespace nor quotes (the regex carries the
`i` flag); returns the captured URL (original case) and the rest. -/
def matchUrl (s : List Char) : Option (List Char × List Char) :=
  match matchCI "http".data s with
  | none => none
  | some (m1, r1) =>
    -- optional `s` (greedy; committing is safe since `:` can never match `s`)
    let sm : List Char × List Char :=
      match r1 with
      | c :: rest => if c.toLower = 's' then ([c], rest) else ([], r1)
      | [] => ([], r1)
    match sm.2 with
    | ':' :: '/' :: '/' :: r3 =>
      let body := r3.takeWhile (fun c => !(isSpace c) && c ≠ squoteChar && c ≠ dquoteChar)
      if body.isEmpty then none
      else some (m1 ++ sm.1 ++ ':' :: '/' :: '/' :: body, r3.drop body.length)
    | _ => none

/-- The curl regex: the literal `curl`, one or more whitespace characters,
an optional `-X` followed by whitespace, an optional method, optional
whitespace, an optional quote, then the URL capture.
The optional groups are committed greedily; the analysis showing that JS
backtracking can never succeed where the committed choice fails: after the
whitespace runs the suffix starts with a non-space character, a declined
`-X\s+` leaves a suffix starting with `-`, and a declined method leaves a
suffix starting with the method's first letter — none of which can start the
URL (which needs `h`/`H`) or a quote. -/
def stepCurl (_idx : Nat) (_prev : Option Char) (s : List Char) :
    Option ((Option String × List Char) × Nat) :=
  match matchCI "curl".data s with
  | none => none
  | some (_, r1) =>
    let sp := r1.takeWhile isSpace
    if sp.isEmpty then none
    else
      let r2 := r1.drop sp.length
      -- optional `-X\s+`
      let afterX : Option (List Char) :=
        match r2 with
        | a :: b :: rest =>
          if a = '-' && b.toLower = 'x' then
            let sp2 := rest.takeWhile isSpace
            if sp2.isEmpty then none else some (rest.drop sp2.length)
          else none
        | _ => none
      let r3 := afterX.getD r2
      -- optional method, then `\s*`, then an optional quote, then the URL
      let tailFrom : List Char → Option (List Char × List Char) := fun r =>
        let r4 := r.dropWhile isSpace
        let r5 := match r4 with
          | q :: rest => if q = squoteChar || q = dquoteChar then rest else r4
          | [] => r4
        matchUrl r5
      match matchMethodAt r3 with
      | some (m, r6) =>
        match tailFrom r6 with
        | some (url, rest) => some ((some m, url), s.length - rest.length)
        | none => none
      | none =>
        match tailFrom r3 with
        | some (url, rest) => some ((none, url), s.length - rest.length)
        | none => none

/-- One hexadecimal digit (uppercase, as the URL serializer emits). -/
def hexDigit (n : Nat) : Char :=
  if n < 10 then Char.ofNat (48 + n) else Char.ofNat (55 + n)

/-- Percent-encode one byte. -/
def pctEncode (n : Nat) : List Char :=
  ['%', hexDigit (n / 16 % 16), hexDigit (n % 16)]

/-- The WHATWG path percent-encode set: C0 controls and DEL, space, `"`,
`#`, `<`, `>`, `?`, backtick, `{`, `}` (plus non-ASCII code points, encoded
here as a single escape — the multi-byte UTF-8 escapes of the real
serializer differ only in spelling, never re-introducing a raw brace). -/
def inPathEncodeSet (c : Char) : Bool :=
  c.toNat < 0x20 || c.toNat = 0x7f || c.toNat ≥ 0x80 || c = ' ' ||
  c = dquoteChar || c = '#' || c = '<' || c = '>' || c = '?' ||
  c = backtickChar || c = obraceChar || c = cbraceChar

/-- Serialize one path character: `\` is treated as `/` in special-scheme
URLs; characters in the path percent-encode set are escaped. -/
def encodePathChar (c : Char) : List Char :=
  if c = '\\' then ['/']
  else if inPathEncodeSet c then pctEncode (c.toNat % 256)
  else [c]

/-- Model of the WHATWG `URL` constructor's `.pathname` for the
`http(s)://`-prefixed strings the curl regex captures (`new URL(...)` is an
external library; modelled here at the fidelity the claims need): the
authority runs to the first `/`, `\`, `?` or `#`; an empty authority makes
the constructor throw (`none`); the path runs to the first `?` or `#` and is
serialized with the path percent-encode set; no path gives `/`.  (Dot-segment
normalization and host validation are simplifications noted in the module
docstring; neither can introduce a brace into the result.)  `urlPathTail`
handles everything after the scheme. -/
def urlPathTail : List Char → Option String
  | ':' :: '/' :: '/' :: r3 =>
    let auth := r3.takeWhile (fun c => c ≠ '/' && c ≠ '\\' && c ≠ '?' && c ≠ '#')
    if auth.isEmpty then none
    else
      let rest := r3.drop auth.length
      let path := rest.takeWhile (fun c => c ≠ '?' && c ≠ '#')
      if path.isEmpty then some "/"
      else some (String.mk (path.flatMap encodePathChar))
  | _ => none

/-- See `urlPathname`. -/
def urlPathname (url : List Char) : Option String :=
  match matchCI "http".data url with
  | none => none
  | some (_, r1) =>
    urlPathTail (match r1 with
      | c :: rest => if c.toLower = 's' then rest else r1
      | [] => r1)

/-- The `extractContextAround` of the text parser. -/
def extractContextAround (text : String) (index radius : Nat) : String :=
  let start := index - radius
  let stop := min text.data.length (index + radius)
  String.mk ((text.data.drop start).take (stop - start))

/-- Descending retry of the heading match's whitespace backtrack: try the
drop offsets `m, m-1, ..., 1` in order. -/
def backtrackWsGo (sp : List Char) : Nat → Option (List Char)
  | 0 => none
  | Nat.succ n =>
    let tl := sp.drop (Nat.succ n)
    match tl.head? with
    | some c =>
      if c ≠ '\n' then some (tl.takeWhile (fun x => x ≠ '\n'))
      else backtrackWsGo sp n
    | none => backtrackWsGo sp n

/-- The backtracking tail of the `#+\s+(.+)` heading match when the input
ends inside the whitespace run: JS retries ever-shorter `\s+` munches, so the
capture starts at the last whitespace character that is not a newline. -/
def backtrackWs (sp : List Char) : Option (List Char) :=
  backtrackWsGo sp (sp.length - 1)

/-- The `/#+\s+(.+)/` at the head of `s`: one or more `#`, one or more whitespace
characters (which may include newlines), then the capture — at least one
non-newline character, greedily to the end of the line. -/
def matchHeadingAt (s : List Char) : Option (List Char) :=
  match s with
  | c :: _ =>
    if c ≠ '#' then none
    else
      let hashes := s.takeWhile (fun x => x = '#')
      let r1 := s.drop hashes.length
      let sp := r1.takeWhile isSpace
      if sp.isEmpty then none
      else
        let r2 := r1.drop sp.length
        match r2 with
        | _ :: _ => some (r2.takeWhile (fun x => x ≠ '\n'))
        | [] => backtrackWs sp
  | [] => none

/-- The `extractSummaryFromContext` of the text parser. -/
def extractSummaryFromContext (context : String) (method path : String) : String :=
  match scanFirst (fun _ s => matchHeadingAt s) none context.data with
  | some cap => strTrim (String.mk cap)
  | none => method ++ " " ++ path

/-- The `/\{([^}]+)\}/g` scan of `extractParamsFromContext`: each `{`
followed by one or more non-`}` characters and a closing `}` yields the
enclosed name; an empty `{}` fails and the scan resumes one character
later.  The fuel is structural bookkeeping only (callers pass `length + 1`,
which always suffices). -/
def braceTokensF : Nat → List Char → List String
  | 0, _ => []
  | Nat.succ _, [] => []
  | Nat.succ fuel, c :: cs =>
    if c = obraceChar then
      let content := cs.takeWhile (fun x => x ≠ cbraceChar)
      match cs.drop content.length with
      | _ :: rest2 =>
        if content.isEmpty then braceTokensF fuel cs
        else String.mk content :: braceTokensF fuel rest2
      | [] => []
    else braceTokensF fuel cs

/-- The `{name}` tokens of a path. -/
def braceTokens (path : String) : List String :=
  braceTokensF (path.data.length + 1) path.data

/-- The `extractParamsFromContext` of the text parser (the context argument is
unused by the source as well): one required string path parameter per
`{name}` token. -/
def extractParamsFromContext (path : String) (_context : String) : List Parameter :=
  (braceTokens path).map fun name =>
    { name := name, inLoc := "path", required := true,
      description := "Path parameter: " ++ name, type := "string",
      dflt := none, enum := none, exampleVal := none }

/-- The `guessTag` of the text parser. -/
def guessTag (path : String) : String :=
  let segments := (splitChar '/' path.data).filter (fun s =>
    !s.isEmpty && s.head? ≠ some obraceChar && s.head? ≠ some ':')
  match segments with
  | _ :: s1 :: _ => capitalize s1
  | [s0] => capitalize s0
  | [] => "default"

/-- The replace call of the text endpoint ids: brace, slash, colon and dot
characters become underscores. -/
def replaceTextIdChars (path : String) : String :=
  String.mk (path.data.map fun c =>
    if c = obraceChar || c = cbraceChar || c = '/' || c = ':' || c = '.' then '_' else c)

/-- The single response every text endpoint carries. -/
def textResponses : List ResponseDef :=
  [{ statusCode := "200", description := "Successful response",
     schema := none, exampleVal := none }]

/-- The endpoint constructed for a pattern match (first loop of
`extractEndpoints`). -/
def mkPatternEndpoint (text : String) (c : PatCand) : Endpoint :=
  let context := extractContextAround text c.idx 500
  { id := strLower c.method ++ "_" ++ replaceTextIdChars c.path,
    method := c.method,
    path := c.path,
    summary := extractSummaryFromContext context c.method c.path,
    description := String.mk (context.data.take 200),
    tag := guessTag c.path,
    operationId := none,
    parameters := extractParamsFromContext c.path context,
    requestBody := none,
    responses := textResponses,
    auth := true,
    deprecated := false }

/-- The endpoint constructed for a curl match (second loop of
`extractEndpoints`). -/
def mkCurlEndpoint (method path : String) : Endpoint :=
  { id := strLower method ++ "_" ++ replaceTextIdChars path,
    method := method,
    path := path,
    summary := method ++ " " ++ path,
    description := "Extracted from curl example",
    tag := guessTag path,
    operationId := none,
    parameters := [],
    requestBody := none,
    responses := textResponses,
    auth := true,
    deprecated := false }

/-- The first `extractEndpoints` loop: process the pattern candidates in
order, skipping keys already in `seen` (and non-methods, though the
canonicalized capture is always one of the five). -/
def processPats (text : String) :
    List PatCand → List String → List Endpoint → List String × List Endpoint
  | [], seen, acc => (seen, acc)
  | c :: rest, seen, acc =>
    let key := c.method ++ " " ++ c.path
    if seen.contains key || !(HTTP_METHODS.contains c.method) then
      processPats text rest seen acc
    else
      processPats text rest (key :: seen) (acc ++ [mkPatternEndpoint text c])

/-- The second `extractEndpoints` loop: mine curl matches, keeping only the
path component of the URL (invalid URLs are skipped), deduplicating against
the same `seen` set. -/
def processCurls :
    List (Option String × List Char) → List String → List Endpoint →
      List String × List Endpoint
  | [], seen, acc => (seen, acc)
  | (mOpt, url) :: rest, seen, acc =>
    let method := mOpt.getD "GET"
    match urlPathname url with
    | none => processCurls rest seen acc
    | some path =>
      let key := method ++ " " ++ path
      if seen.contains key then processCurls rest seen acc
      else processCurls rest (key :: seen) (acc ++ [mkCurlEndpoint method path])

/-- The `extractEndpoints` of the text parser: the three pattern scans in order,
then the curl scan, all deduplicated by `method + " " + path` through one
shared `seen` set. -/
def extractEndpoints (input : String) : List Endpoint :=
  let text := input.data
  let fuel := text.length + 1
  let cands := scanAll step1 fuel 0 none text ++ scanAll step2 fuel 0 none text ++
    scanAll step3 fuel 0 none text
  let sp := processPats input cands [] []
  (processCurls (scanAll stepCurl fuel 0 none text) sp.1 sp.2).2

/-- The `/bearer\s*token/i` at the head of `s` (maximal whitespace munch is safe:
`t` is not whitespace). -/
def matchBearerTokenAt (s : List Char) : Option Unit :=
  match matchCI "bearer".data s with
  | some (_, r1) => (matchCI "token".data (r1.dropWhile isSpace)).map fun _ => ()
  | none => none

/-- The `/authorization:\s*bearer/i` at the head of `s`. -/
def matchAuthBearerAt (s : List Char) : Option Unit :=
  match matchCI "authorization:".data s with
  | some (_, r1) => (matchCI "bearer".data (r1.dropWhile isSpace)).map fun _ => ()
  | none => none

/-- The bearer cue of `extractAuth`:
`/bearer\s*token/i.test(text) || /authorization:\s*bearer/i.test(text)`. -/
def bearerCue (text : String) : Bool :=
  (scanFirst (fun _ s => matchBearerTokenAt s) none text.data).isSome ||
  (scanFirst (fun _ s => matchAuthBearerAt s) none text.data).isSome

/-- The `/x-api-key/i` at the head of `s`: the consumed slice (original case)
and the rest. -/
def matchXApiKeyAt (s : List Char) : Option (List Char × List Char) :=
  matchCI "x-api-key".data s

/-- The `/api[_-]?key/i` at the head of `s`: `api`, a greedy optional `_` or `-`
(backtracking to the separator-less reading when `key` does not follow), then
`key`; the consumed slice (original case) and the rest. -/
def matchApiKeyAt (s : List Char) : Option (List Char × List Char) :=
  match matchCI "api".data s with
  | none => none
  | some (m1, r1) =>
    match r1 with
    | c :: rest =>
      if c = '_' || c = '-' then
        match matchCI "key".data rest with
        | some (m2, r2) => some (m1 ++ c :: m2, r2)
        | none => (matchCI "key".data r1).map fun p => (m1 ++ p.1, p.2)
      else (matchCI "key".data r1).map fun p => (m1 ++ p.1, p.2)
    | [] => none

/-- The api-key cue of `extractAuth`:
`/api[_-]?key/i.test(text) || /x-api-key/i.test(text)`. -/
def apiKeyCue (text : String) : Bool :=
  (scanFirst (fun _ s => matchApiKeyAt s) none text.data).isSome ||
  (scanFirst (fun _ s => matchXApiKeyAt s) none text.data).isSome

/-- The `text.match(/(x-api-key|api[_-]?key)/i)?.[1]`: the first (leftmost)
match of the alternation, trying `x-api-key` before `api[_-]?key` at each
position (they can never both match at one position: their first characters
differ). -/
def apiKeyHeaderMatch (text : String) : Option String :=
  (scanFirst (fun _ s =>
    match matchXApiKeyAt s with
    | some (m, _) => some m
    | none => (matchApiKeyAt s).map Prod.fst) none text.data).map String.mk

/-- The `extractAuth` of the text parser: ordered first-match-wins keyword
checks.  Returns the scheme together with the warnings it appends (one
when nothing matched, none otherwise). -/
def extractAuth (text : String) : AuthScheme × List String :=
  if bearerCue text then
    ({ type := "bearer", headerName := none, queryParamName := none,
       scheme := some "bearer",
       description := some "Bearer token authentication (detected from docs)",
       flows := none }, [])
  else if apiKeyCue text then
    ({ type := "apiKey",
       headerName := some (strOr (apiKeyHeaderMatch text) "X-API-Key"),
       queryParamName := none, scheme := none,
       description := some "API Key authentication (detected from docs)",
       flows := none }, [])
  else if containsSub "basic auth".data (strLower text).data then
    ({ type := "basic", headerName := none, queryParamName := none,
       scheme := some "basic",
       description := some "Basic authentication (detected from docs)",
       flows := none }, [])
  else if containsSub "oauth".data (strLower text).data then
    ({ type := "oauth2", headerName := none, queryParamName := none, scheme := none,
       description := some "OAuth 2.0 (detected from docs)", flows := none }, [])
  else
    ({ type := "unknown", headerName := none, queryParamName := none, scheme := none,
       description := some "Authentication method not detected — please specify.",
       flows := none },
     ["Authentication method could not be determined from the text."])

/-- The `/^#\s+(.+)$/m` at a position: `^` holds at the start of the text or
after a newline; a single `#`, one or more whitespace characters (which may
cross lines), then at least one non-newline character, greedily to the end
of the line (the multiline `$` then holds automatically). -/
def matchH1At (prev : Option Char) (s : List Char) : Option (List Char) :=
  if (match prev with | none => true | some c => c = '\n') then
    match s with
    | c :: cs =>
      if c = '#' then
        let sp := cs.takeWhile isSpace
        if sp.isEmpty then none
        else
          let r2 := cs.drop sp.length
          match r2 with
          | _ :: _ => some (r2.takeWhile (fun x => x ≠ '\n'))
          | [] => backtrackWs sp
      else none
    | [] => none
  else none

/-- The `extractTitle` of the text parser: the first markdown H1, else the first
non-blank line when it is shorter than 80 characters, else `null`. -/
def extractTitle (text : String) : Option String :=
  match scanFirst matchH1At none text.data with
  | some cap => some (strTrim (String.mk cap))
  | none =>
    let lines := (splitChar '\n' text.data).filter (fun l => !(trimList l).isEmpty)
    match lines.head? with
    | some l0 => if l0.length < 80 then some (strTrim (String.mk l0)) else none
    | none => none

/-- Join with single spaces (the JS array join with a space separator). -/
def joinSpace : List (List Char) → List Char
  | [] => []
  | [x] => x
  | x :: rest => x ++ ' ' :: joinSpace rest

/-- The `extractDescription` of the text parser: the first three non-blank lines
joined by spaces, truncated to 200 characters. -/
def extractDescription (text : String) : String :=
  let lines := (splitChar '\n' text.data).filter (fun l => !(trimList l).isEmpty)
  String.mk ((joinSpace (lines.take 3)).take 200)

/-- The label alternation `(?:base\s*url|api\s*url|endpoint|server|host)` of
the primary base-URL regex (the alternatives start with distinct letters, so
at most one can match at a position); returns the rest after the label. -/
def matchLabelAt (s : List Char) : Option (List Char) :=
  match matchCI "base".data s with
  | some (_, r1) => (matchCI "url".data (r1.dropWhile isSpace)).map Prod.snd
  | none =>
    match matchCI "api".data s with
    | some (_, r1) => (matchCI "url".data (r1.dropWhile isSpace)).map Prod.snd
    | none =>
      match matchCI "endpoint".data s with
      | some (_, r1) => some r1
      | none =>
        match matchCI "server".data s with
        | some (_, r1) => some r1
        | none => (matchCI "host".data s).map Prod.snd

/-- The URL capture class `[^\s\n"'`<>]+` of the primary base-URL regex. -/
def isUrlAChar (c : Char) : Bool :=
  !(isSpace c) && c ≠ dquoteChar && c ≠ squoteChar && c ≠ backtickChar &&
  c ≠ '<' && c ≠ '>'

/-- The `https?:\/\/` + capture class at the head of `s` (case-insensitive, as
the primary base-URL regex carries `/i`). -/
def matchUrlA (s : List Char) : Option (List Char) :=
  match matchCI "http".data s with
  | none => none
  | some (m1, r1) =>
    let sm : List Char × List Char :=
      match r1 with
      | c :: rest => if c.toLower = 's' then ([c], rest) else ([], r1)
      | [] => ([], r1)
    match sm.2 with
    | ':' :: '/' :: '/' :: r3 =>
      let body := r3.takeWhile isUrlAChar
      if body.isEmpty then none
      else some (m1 ++ sm.1 ++ ':' :: '/' :: '/' :: body)
    | _ => none

/-- The primary base-URL pattern
`/(?:base\s*url|api\s*url|endpoint|server|host)[:\s]*\n?\s*(https?:...)/i`
at one position; `[:\s]*\n?\s*` collapses to the maximal run of colons and
whitespace (`\n` and `\s` are contained in `[:\s]`, and any shorter munch
leaves a `[:\s]` character where `h` is required). -/
def stepBaseUrlA (s : List Char) : Option (List Char) :=
  match matchLabelAt s with
  | none => none
  | some r1 => matchUrlA (r1.dropWhile (fun c => isSpace c || c = ':'))

/-- The fallback base-URL pattern
`/(https?:\/\/[a-zA-Z0-9][-a-zA-Z0-9.]*(?:\/api)?(?:\/v\d+)?)/` at one
position (case-sensitive: no `/i` flag on this regex). -/
def stepBaseUrlB (s : List Char) : Option (List Char) :=
  match s with
  | 'h' :: 't' :: 't' :: 'p' :: r1 =>
    let sm : List Char × List Char :=
      match r1 with
      | 's' :: rest => (['s'], rest)
      | _ => ([], r1)
    match sm.2 with
    | ':' :: '/' :: '/' :: r3 =>
      match r3 with
      | c0 :: r4 =>
        if c0.isAlphanum then
          let host := r4.takeWhile (fun c => c.isAlphanum || c = '-' || c = '.')
          let r5 := r4.drop host.length
          let api : List Char × List Char :=
            match r5 with
            | '/' :: 'a' :: 'p' :: 'i' :: rest => ("/api".data, rest)
            | _ => ([], r5)
          let ver : List Char :=
            match api.2 with
            | '/' :: 'v' :: rest =>
              let digits := rest.takeWhile Char.isDigit
              if digits.isEmpty then [] else '/' :: 'v' :: digits
            | _ => []
          some ("http".data ++ sm.1 ++ ':' :: '/' :: '/' :: c0 :: host ++ api.1 ++ ver)
        else none
      | [] => none
    | _ => none
  | _ => none

/-- The `extractBaseUrl` of the text parser: the labelled pattern first, then the
fallback pattern, each stripped of trailing slashes. -/
def extractBaseUrl (text : String) : Option String :=
  match scanFirst (fun _ s => stepBaseUrlA s) none text.data with
  | some cap => some (String.mk (dropTrailingSlashes cap))
  | none =>
    match scanFirst (fun _ s => stepBaseUrlB s) none text.data with
    | some cap => some (String.mk (dropTrailingSlashes cap))
    | none => none

/-- The `/\bword\b/` test: the literal occurs with no word character on either
side (applied to the lowercased text by the pagination detectors). -/
def wordTest (w : List Char) (s : List Char) : Bool :=
  (scanFirst (fun prev t =>
    if (match prev with | some c => isWordChar c | none => false) then none
    else match matchExact w t with
      | some rest =>
        match rest.head? with
        | some c => if isWordChar c then none else some ()
        | none => some ()
      | none => none) none s).isSome

/-- The `extractPaginationHints` of the text parser: three independent lexical
checks, each contributing one hint. -/
def extractPaginationHints (text : String) : List PaginationHint :=
  let lower := (strLower text).data
  (if wordTest "cursor".data lower || wordTest "after".data lower then
    [{ type := "cursor", parameters := ["cursor"],
       description := "Cursor-based pagination detected" }] else []) ++
  (if wordTest "offset".data lower && wordTest "limit".data lower then
    [{ type := "offset", parameters := ["offset", "limit"],
       description := "Offset-based pagination detected" }] else []) ++
  (if wordTest "page".data lower && wordTest "per_page".data lower then
    [{ type := "page", parameters := ["page", "per_page"],
       description := "Page-based pagination detected" }] else [])

/-- The `/429|rate.?limit|too many requests/i.test(text)`: the alternation tried
in order at each position; `.?` is a greedy optional non-newline character. -/
def rateLimitCue (text : String) : Bool :=
  (scanFirst (fun _ s =>
    if "429".data.isPrefixOf s then some ()
    else match matchCI "rate".data s with
      | some (_, r1) =>
        let withChar :=
          match r1 with
          | c :: rest => c ≠ '\n' && (matchCI "limit".data rest).isSome
          | [] => false
        if withChar || (matchCI "limit".data r1).isSome then some () else none
      | none => (matchCI "too many requests".data s).map fun _ => ())
    none text.data).isSome

/-- The `extractRateLimitHints` of the text parser. -/
def extractRateLimitHints (text : String) : List RateLimitHint :=
  if rateLimitCue text then
    [{ statusCode := 429, retryHeader := some "Retry-After",
       description := "Rate limiting detected in docs" }]
  else []

/-- The `buildTagGroups` of the text parser (same `Map` folding as the
structured one, without declared tag definitions). -/
def buildTagGroups (endpoints : List Endpoint) : List TagGroup :=
  (endpoints.foldl (fun m ep =>
    let tag := if ep.tag = "" then "default" else ep.tag
    OpenApi.pushEndpointId m tag ep.id) []).map Prod.snd

/-- Truthiness of the nullable base-URL string (`if (!baseUrl)`). -/
def optStrTruthy : Option String → Bool
  | some s => s ≠ ""
  | none => false

/-- The `parseTextDocs` of the text parser: a total function — the text path
never throws for any input. -/
def parseTextDocs (input : String) : ParseResult :=
  let baseUrl := extractBaseUrl input
  let authW := extractAuth input
  let endpoints := extractEndpoints input
  let noEp := endpoints.isEmpty
  { spec :=
      { title := strOr (extractTitle input) "Untitled API",
        description := extractDescription input,
        version := "1.0.0",
        baseUrl := strOr baseUrl "https://api.example.com",
        auth := authW.1,
        endpoints := endpoints,
        tags := buildTagGroups endpoints,
        paginationHints := extractPaginationHints input,
        rateLimitHints := extractRateLimitHints input,
        sourceType := "text" },
    warnings := authW.2 ++
      (if noEp then ["No endpoints could be extracted from the documentation text."]
       else []),
    todos :=
      (if !optStrTruthy baseUrl then
        ["TODO: Base URL could not be determined from the text — please provide it."]
       else []) ++
      (if noEp then
        ["TODO: Manually add endpoint definitions — the parser could not detect any."]
       else []) }

end TextParser

/-! ## Concrete documents and views used by the claim theorems -/

/-- The round-trip document of the spec's scenario: a minimal OpenAPI-3
document with one GET operation. -/
def c2doc : Json :=
  jobj [("openapi", .str "3.0.0"),
        ("info", jobj [("title", .str "T"), ("version", .str "1")]),
        ("servers", jarr [jobj [("url", .str "https://x.io")]]),
        ("paths", jobj [("/a", jobj [("get", jobj [
          ("operationId", .str "getA"),
          ("responses", jobj [("200", jobj [("description", .str "ok")])])])])])]

/-- Two distinct paths whose operations declare the same `operationId`. -/
def c3doc : Json :=
  jobj [("paths", jobj [
    ("/a", jobj [("get", jobj [("operationId", .str "x")])]),
    ("/b", jobj [("get", jobj [("operationId", .str "x")])])])]

/-- The `method + " " + path` deduplication key of the text parser. -/
def epKey (e : Endpoint) : String := e.method ++ " " ++ e.path

/-- A default endpoint (used only to take the head of concrete non-empty
endpoint lists in witnesses). -/
def epDefault : Endpoint :=
  { id := "", method := "", path := "", summary := "", description := "",
    tag := "", operationId := none, parameters := [], requestBody := none,
    responses := [], auth := false, deprecated := false }

/-- The single endpoint the text normalizer extracts from
`"GET /users/\x7bid\x7d"`. -/
def c5ep : Endpoint :=
  ((TextParser.parseTextDocs "GET /users/{id}").spec.endpoints).headD epDefault

/-- The single endpoint the text normalizer extracts from
`"DELETE /items"`. -/
def c10ep : Endpoint :=
  ((TextParser.parseTextDocs "DELETE /items").spec.endpoints).headD epDefault

/-! ## Claim C1 -/

/-- C1 (amended): the structured normalizer produces the error
`"Could not parse input as JSON or YAML"` exactly when both the JSON and the
YAML decoder fail; no decoded document — not even one on which the pipeline
later raises a `TypeError` — ever produces that error.  (The claim's further
assertion that every successful decode returns a `ParseResult` is refuted by
`c1_counterexample`; `parseTextDocs` is a total function, so the text path
never throws.) -/
theorem c1_parse_error_iff (jsonResult yamlResult : Option Json) :
    (OpenApi.parseOpenApiSpecE jsonResult yamlResult =
      Except.error (OpenApi.JsError.parseError "Could not parse input as JSON or YAML")) ↔
    (jsonResult = none ∧ yamlResult = none) := by
  cases jsonResult with
  | some d =>
    simp only [OpenApi.parseOpenApiSpecE, OpenApi.runStructuredDoc]
    cases d <;> simp [OpenApi.parseOpenApiDocE] <;> split <;> simp
  | none =>
    cases yamlResult with
    | some d =>
      simp only [OpenApi.parseOpenApiSpecE, OpenApi.runStructuredDoc]
      cases d <;> simp [OpenApi.parseOpenApiDocE] <;> split <;> simp
    | none => simp [OpenApi.parseOpenApiSpecE]

/-- C1 counterexample: the input string `"null"` decodes successfully under
`JSON.parse` (to `null`), yet the normalizer does not return a
`ParseResult` — reading `doc.swagger` on the `null` document raises a
`TypeError`, so the `ParseError` is not the only hard failure of the
pipeline. -/
theorem c1_counterexample :
    OpenApi.parseOpenApiSpecE (some Json.null) (some Json.null) =
      Except.error OpenApi.JsError.typeError := rfl

/-! ## Claim C2 -/

/-- C2: the round-trip scenario.  Normalizing the document
`{"openapi":"3.0.0","info":{"title":"T","version":"1"},"servers":[...],
"paths":{"/a":{"get":{"operationId":"getA","responses":{"200":...}}}}}`
yields title `"T"`, base URL `"https://x.io"`, exactly one endpoint with id
`"getA"`, method `"GET"`, path `"/a"` and no parameters, and no todos. -/
theorem c2_round_trip :
    OpenApi.parseOpenApiSpecE (some c2doc) none =
      Except.ok (OpenApi.parseOpenApiDoc c2doc) ∧
    (OpenApi.parseOpenApiDoc c2doc).spec.title = "T" ∧
    (OpenApi.parseOpenApiDoc c2doc).spec.baseUrl = "https://x.io" ∧
    (OpenApi.parseOpenApiDoc c2doc).spec.endpoints.map
      (fun e => (e.id, e.method, e.path, e.parameters)) =
      [("getA", "GET", "/a", [])] ∧
    (OpenApi.parseOpenApiDoc c2doc).todos = [] :=
  ⟨rfl, rfl, rfl, rfl, rfl⟩

/-! ## Claim C3 -/

/-- C3 counterexample: the structured extractor performs no deduplication at
all — two distinct endpoints (paths `/a` and `/b`) share the id `"x"` when
their operations declare the same `operationId`, so endpoint ids are not
pairwise distinct. -/
theorem c3_counterexample :
    (OpenApi.parseOpenApiDoc c3doc).spec.endpoints.map Endpoint.id = ["x", "x"] ∧
    (OpenApi.parseOpenApiDoc c3doc).spec.endpoints.map Endpoint.path = ["/a", "/b"] ∧
    ¬ ((OpenApi.parseOpenApiDoc c3doc).spec.endpoints.map Endpoint.id).Nodup :=
  ⟨rfl, rfl, by decide⟩

/-! ### Invariants of the text extractor's accumulation loops -/

theorem processPats_mem_prop (P : Endpoint → Prop) (text : String) :
    ∀ (cands : List TextParser.PatCand) (seen : List String) (acc : List Endpoint),
      (∀ e ∈ acc, P e) →
      (∀ c, P (TextParser.mkPatternEndpoint text c)) →
      ∀ e ∈ (TextParser.processPats text cands seen acc).2, P e := by
  intro cands
  induction cands with
  | nil =>
    intro seen acc hacc _ e he
    exact hacc e he
  | cons c rest ih =>
    intro seen acc hacc hP e he
    simp only [TextParser.processPats] at he
    split at he
    · exact ih _ _ hacc hP e he
    · refine ih _ _ ?_ hP e he
      intro e2 he2
      rcases List.mem_append.mp he2 with h | h
      · exact hacc e2 h
      · rcases List.mem_singleton.mp h with rfl
        exact hP c

theorem processCurls_mem_prop (P : Endpoint → Prop) :
    ∀ (cs : List (Option String × List Char)) (seen : List String)
      (acc : List Endpoint),
      (∀ e ∈ acc, P e) →
      (∀ m pth url, TextParser.urlPathname url = some pth →
        P (TextParser.mkCurlEndpoint m pth)) →
      ∀ e ∈ (TextParser.processCurls cs seen acc).2, P e := by
  intro cs
  induction cs with
  | nil =>
    intro seen acc hacc _ e he
    exact hacc e he
  | cons c rest ih =>
    obtain ⟨mOpt, url⟩ := c
    intro seen acc hacc hP e he
    cases hu : TextParser.urlPathname url with
    | none =>
      simp only [TextParser.processCurls, hu] at he
      exact ih _ _ hacc hP e he
    | some pth =>
      simp only [TextParser.processCurls, hu] at he
      split at he
      · exact ih _ _ hacc hP e he
      · refine ih _ _ ?_ hP e he
        intro e2 he2
        rcases List.mem_append.mp he2 with h | h
        · exact hacc e2 h
        · rcases List.mem_singleton.mp h with rfl
          exact hP (mOpt.getD "GET") pth url hu

theorem text_endpoints_mem_prop (P : Endpoint → Prop) (input : String)
    (hpat : ∀ c, P (TextParser.mkPatternEndpoint input c))
    (hcurl : ∀ m pth url, TextParser.urlPathname url = some pth →
      P (TextParser.mkCurlEndpoint m pth)) :
    ∀ e ∈ TextParser.extractEndpoints input, P e := by
  intro e he
  simp only [TextParser.extractEndpoints] at he
  exact processCurls_mem_prop P _ _ _
    (processPats_mem_prop P input _ _ _ (by simp) hpat) hcurl e he

theorem processPats_distinct (text : String) :
    ∀ (cands : List TextParser.PatCand) (seen : List String) (acc : List Endpoint),
      (∀ e ∈ acc, epKey e ∈ seen) →
      acc.Pairwise (fun a b => epKey a ≠ epKey b) →
      (∀ e ∈ (TextParser.processPats text cands seen acc).2,
        epKey e ∈ (TextParser.processPats text cands seen acc).1) ∧
      (TextParser.processPats text cands seen acc).2.Pairwise
        (fun a b => epKey a ≠ epKey b) := by
  intro cands
  induction cands with
  | nil =>
    intro seen acc h1 h2
    exact ⟨h1, h2⟩
  | cons c rest ih =>
    intro seen acc h1 h2
    simp only [TextParser.processPats]
    split
    · exact ih seen acc h1 h2
    · rename_i hcond
      simp only [Bool.or_eq_true, not_or] at hcond
      have hnotin : ¬ (c.method ++ " " ++ c.path) ∈ seen := by
        intro hmem
        exact hcond.1 (List.elem_iff.mpr hmem)
      refine ih _ _ ?_ ?_
      · intro e he
        rcases List.mem_append.mp he with h | h
        · exact List.mem_cons_of_mem _ (h1 e h)
        · rcases List.mem_singleton.mp h with rfl
          exact List.mem_cons_self _ _
      · rw [List.pairwise_append]
        refine ⟨h2, List.pairwise_singleton _ _, ?_⟩
        intro a ha b hb
        rcases List.mem_singleton.mp hb with rfl
        intro heq
        refine hnotin ?_
        have h3 := h1 a ha
        rw [heq] at h3
        exact h3

theorem processCurls_distinct :
    ∀ (cs : List (Option String × List Char)) (seen : List String)
      (acc : List Endpoint),
      (∀ e ∈ acc, epKey e ∈ seen) →
      acc.Pairwise (fun a b => epKey a ≠ epKey b) →
      (∀ e ∈ (TextParser.processCurls cs seen acc).2,
        epKey e ∈ (TextParser.processCurls cs seen acc).1) ∧
      (TextParser.processCurls cs seen acc).2.Pairwise
        (fun a b => epKey a ≠ epKey b) := by
  intro cs
  induction cs with
  | nil =>
    intro seen acc h1 h2
    exact ⟨h1, h2⟩
  | cons c rest ih =>
    obtain ⟨mOpt, url⟩ := c
    intro seen acc h1 h2
    cases hu : TextParser.urlPathname url with
    | none =>
      simp only [TextParser.processCurls, hu]
      exact ih seen acc h1 h2
    | some pth =>
      simp only [TextParser.processCurls, hu]
      split
      · exact ih seen acc h1 h2
      · rename_i hcond
        have hnotin : ¬ (mOpt.getD "GET" ++ " " ++ pth) ∈ seen := by
          intro hmem
          exact hcond (List.elem_iff.mpr hmem)
        refine ih _ _ ?_ ?_
        · intro e he
          rcases List.mem_append.mp he with h | h
          · exact List.mem_cons_of_mem _ (h1 e h)
          · rcases List.mem_singleton.mp h with rfl
            exact List.mem_cons_self _ _
        · rw [List.pairwise_append]
          refine ⟨h2, List.pairwise_singleton _ _, ?_⟩
          intro a ha b hb
          rcases List.mem_singleton.mp hb with rfl
          intro heq
          refine hnotin ?_
          have h3 := h1 a ha
          rw [heq] at h3
          exact h3

/-- C3 (amended): the deduplication the extractors actually perform is by
`(method, path)` in the text normalizer only — its endpoints are pairwise
distinct in `(method, path)` (while ids may still collide, and the
structured normalizer deduplicates nothing, per `c3_counterexample`). -/
theorem c3_amended (input : String) :
    ((TextParser.parseTextDocs input).spec.endpoints).Pairwise
      (fun a b => ¬ (a.method = b.method ∧ a.path = b.path)) := by
  have h : (TextParser.parseTextDocs input).spec.endpoints =
      TextParser.extractEndpoints input := rfl
  rw [h]
  simp only [TextParser.extractEndpoints]
  have h1 := processPats_distinct input
    (TextParser.scanAll TextParser.step1 (input.data.length + 1) 0 none input.data ++
     TextParser.scanAll TextParser.step2 (input.data.length + 1) 0 none input.data ++
     TextParser.scanAll TextParser.step3 (input.data.length + 1) 0 none input.data)
    [] [] (by simp) (by simp)
  have h2 := processCurls_distinct
    (TextParser.scanAll TextParser.stepCurl (input.data.length + 1) 0 none input.data)
    _ _ h1.1 h1.2
  refine h2.2.imp ?_
  intro a b hne hand
  exact hne (by simp only [epKey, hand.1, hand.2])

/-! ### The curl path component never contains a brace -/

theorem hexDigit_ne_brace {n : Nat} (h : n < 16) :
    TextParser.hexDigit n ≠ TextParser.obraceChar := by
  revert h
  revert n
  decide

theorem encodePathChar_no_brace (c : Char) :
    TextParser.obraceChar ∉ TextParser.encodePathChar c := by
  unfold TextParser.encodePathChar
  split
  · simp
    decide
  · split
    · unfold TextParser.pctEncode
      intro hmem
      simp only [List.mem_cons, List.not_mem_nil, or_false] at hmem
      rcases hmem with h | h | h
      · revert h
        decide
      · exact hexDigit_ne_brace (Nat.mod_lt _ (by omega)) h.symm
      · exact hexDigit_ne_brace (Nat.mod_lt _ (by omega)) h.symm
    · rename_i hset
      simp only [List.mem_singleton]
      intro heq
      rw [← heq] at hset
      simp [TextParser.inPathEncodeSet] at hset

theorem urlPathTail_no_brace {l : List Char} {pth : String}
    (h : TextParser.urlPathTail l = some pth) :
    TextParser.obraceChar ∉ pth.data := by
  unfold TextParser.urlPathTail at h
  split at h
  · dsimp only at h
    split at h
    · cases h
    · split at h
      · cases h
        decide
      · cases h
        intro hmem
        rcases List.mem_flatMap.mp hmem with ⟨c, _, hc⟩
        exact encodePathChar_no_brace c hc
  · cases h

theorem urlPathname_no_brace {url : List Char} {pth : String}
    (h : TextParser.urlPathname url = some pth) :
    TextParser.obraceChar ∉ pth.data := by
  unfold TextParser.urlPathname at h
  split at h
  · cases h
  · exact urlPathTail_no_brace h

theorem braceTokensF_no_brace {l : List Char} (fuel : Nat)
    (h : TextParser.obraceChar ∉ l) : TextParser.braceTokensF fuel l = [] := by
  induction fuel generalizing l with
  | zero => rfl
  | succ fuel ih =>
    cases l with
    | nil => rfl
    | cons c cs =>
      simp only [TextParser.braceTokensF]
      rw [if_neg (by intro heq; exact h (heq ▸ List.mem_cons_self c cs))]
      exact ih (fun hmem => h (List.mem_cons_of_mem c hmem))

theorem braceTokens_no_brace {pth : String}
    (h : TextParser.obraceChar ∉ pth.data) : TextParser.braceTokens pth = [] :=
  braceTokensF_no_brace _ h

/-- C5: every `{name}` token of an endpoint path produced by the text
normalizer — including the endpoints mined from curl examples, whose URL
path component can never contain a raw brace after WHATWG serialization —
has a corresponding required string path parameter. -/
theorem c5_path_params (input : String) (ep : Endpoint)
    (hep : ep ∈ (TextParser.parseTextDocs input).spec.endpoints)
    (name : String) (hname : name ∈ TextParser.braceTokens ep.path) :
    ∃ p ∈ ep.parameters, p.name = name ∧ p.inLoc = "path" ∧
      p.required = true ∧ p.type = "string" := by
  have hmem : ep ∈ TextParser.extractEndpoints input := hep
  refine text_endpoints_mem_prop
    (fun e => ∀ nm ∈ TextParser.braceTokens e.path,
      ∃ p ∈ e.parameters, p.name = nm ∧ p.inLoc = "path" ∧
        p.required = true ∧ p.type = "string") input ?_ ?_ ep hmem name hname
  · intro c nm hnm
    exact ⟨_, List.mem_map_of_mem _ hnm, rfl, rfl, rfl, rfl⟩
  · intro m pth url hu nm hnm
    rw [show (TextParser.mkCurlEndpoint m pth).path = pth from rfl,
      braceTokens_no_brace (urlPathname_no_brace hu)] at hnm
    cases hnm

/-- C5 witness: instantiated at the input `"GET /users/\x7bid\x7d"` and its
single extracted endpoint. -/
theorem c5_witness :
    c5ep ∈ (TextParser.parseTextDocs "GET /users/{id}").spec.endpoints ∧
    "id" ∈ TextParser.braceTokens c5ep.path ∧
    ∃ p ∈ c5ep.parameters, p.name = "id" ∧ p.inLoc = "path" ∧
      p.required = true ∧ p.type = "string" := by
  have hl : (TextParser.parseTextDocs "GET /users/{id}").spec.endpoints = [c5ep] := rfl
  have hmem : c5ep ∈ (TextParser.parseTextDocs "GET /users/{id}").spec.endpoints := by
    rw [hl]
    exact List.mem_cons_self _ _
  have hname : "id" ∈ TextParser.braceTokens c5ep.path := by
    rw [show TextParser.braceTokens c5ep.path = ["id"] from rfl]
    exact List.mem_cons_self _ _
  exact ⟨hmem, hname, c5_path_params "GET /users/{id}" c5ep hmem "id" hname⟩

/-! ## Claim C10 -/

/-- C10: every endpoint the text normalizer produces — from the three
pattern scans and from the curl scan alike — has `auth = true` and exactly
the single response `200 / "Successful response"`, regardless of what the
input text says. -/
theorem c10_text_defaults (input : String) (ep : Endpoint)
    (hep : ep ∈ (TextParser.parseTextDocs input).spec.endpoints) :
    ep.auth = true ∧ ep.responses =
      [{ statusCode := "200", description := "Successful response",
         schema := none, exampleVal := none }] := by
  have hmem : ep ∈ TextParser.extractEndpoints input := hep
  exact text_endpoints_mem_prop
    (fun e => e.auth = true ∧ e.responses =
      [{ statusCode := "200", description := "Successful response",
         schema := none, exampleVal := none }]) input
    (fun _ => ⟨rfl, rfl⟩) (fun _ _ _ _ => ⟨rfl, rfl⟩) ep hmem

/-- C10 witness: instantiated at the input `"DELETE /items"` and its single
extracted endpoint. -/
theorem c10_witness :
    c10ep ∈ (TextParser.parseTextDocs "DELETE /items").spec.endpoints ∧
    c10ep.auth = true ∧ c10ep.responses =
      [{ statusCode := "200", description := "Successful response",
         schema := none, exampleVal := none }] := by
  have hl : (TextParser.parseTextDocs "DELETE /items").spec.endpoints = [c10ep] := rfl
  have hmem : c10ep ∈ (TextParser.parseTextDocs "DELETE /items").spec.endpoints := by
    rw [hl]
    exact List.mem_cons_self _ _
  exact ⟨hmem, c10_text_defaults "DELETE /items" c10ep hmem⟩

/-! ## Claim C4 -/

theorem scanFirst_some_prop {α : Type} {P : α → Prop}
    {step : Option Char → List Char → Option α}
    (hstep : ∀ p s a, step p s = some a → P a) :
    ∀ (prev : Option Char) (cs : List Char) (a : α),
      TextParser.scanFirst step prev cs = some a → P a := by
  intro prev cs
  induction cs generalizing prev with
  | nil =>
    intro a ha
    exact hstep _ _ _ ha
  | cons c cs ih =>
    intro a ha
    cases hs : step prev (c :: cs) with
    | some r =>
      simp only [TextParser.scanFirst, hs] at ha
      cases ha
      exact hstep _ _ _ hs
    | none =>
      simp only [TextParser.scanFirst, hs] at ha
      exact ih _ _ ha

theorem matchCI_ne_nil {pat s : List Char} {m r : List Char} (hpat : pat ≠ [])
    (h : TextParser.matchCI pat s = some (m, r)) : m ≠ [] := by
  cases pat with
  | nil => exact absurd rfl hpat
  | cons p ps =>
    cases s with
    | nil => simp [TextParser.matchCI] at h
    | cons c cs =>
      simp only [TextParser.matchCI] at h
      split at h
      · cases hrec : TextParser.matchCI ps cs with
        | some pr =>
          rw [hrec] at h
          cases h
          simp
        | none =>
          rw [hrec] at h
          cases h
      · cases h

theorem matchApiKeyAt_ne_nil {s m r : List Char}
    (h : TextParser.matchApiKeyAt s = some (m, r)) : m ≠ [] := by
  unfold TextParser.matchApiKeyAt at h
  cases h1 : TextParser.matchCI "api".data s with
  | none => rw [h1] at h; cases h
  | some p1 =>
    obtain ⟨m1, r1⟩ := p1
    have hm1 : m1 ≠ [] := matchCI_ne_nil (by decide) h1
    rw [h1] at h
    cases r1 with
    | nil => simp at h
    | cons c rest =>
      dsimp only at h
      split at h
      · cases h2 : TextParser.matchCI "key".data rest with
        | some p2 =>
          rw [h2] at h
          cases h
          simp [hm1]
        | none =>
          rw [h2] at h
          cases h3 : TextParser.matchCI "key".data (c :: rest) with
          | some p3 =>
            rw [h3] at h
            cases h
            simp [hm1]
          | none =>
            rw [h3] at h
            cases h
      · cases h3 : TextParser.matchCI "key".data (c :: rest) with
        | some p3 =>
          rw [h3] at h
          cases h
          simp [hm1]
        | none =>
          rw [h3] at h
          cases h

theorem scanFirst_header_isSome (prev : Option Char) (cs : List Char)
    (h : (TextParser.scanFirst (fun _ s => TextParser.matchApiKeyAt s) prev cs).isSome ∨
         (TextParser.scanFirst (fun _ s => TextParser.matchXApiKeyAt s) prev cs).isSome) :
    (TextParser.scanFirst (fun _ s =>
      match TextParser.matchXApiKeyAt s with
      | some (m, _) => some m
      | none => (TextParser.matchApiKeyAt s).map Prod.fst) prev cs).isSome := by
  induction cs generalizing prev with
  | nil =>
    rcases h with h | h
    · rw [show TextParser.scanFirst (fun _ s => TextParser.matchApiKeyAt s) prev [] =
        none from rfl] at h
      simp at h
    · rw [show TextParser.scanFirst (fun _ s => TextParser.matchXApiKeyAt s) prev [] =
        none from rfl] at h
      simp at h
  | cons c cs ih =>
    cases hx : TextParser.matchXApiKeyAt (c :: cs) with
    | some p =>
      obtain ⟨m, r⟩ := p
      simp [TextParser.scanFirst, hx]
    | none =>
      cases ha : TextParser.matchApiKeyAt (c :: cs) with
      | some p =>
        obtain ⟨m, r⟩ := p
        simp [TextParser.scanFirst, ha, hx]
      | none =>
        simp only [TextParser.scanFirst, hx, ha, Option.map_none] at h ⊢
        exact ih _ h

/-- C4 counterexample: an input containing only the generic `api_key` phrase
(no bearer cue, no header-looking token) yields `headerName = "api_key"` —
the literal matched token — and not the `"X-API-Key"` default the claim
requires for this case. -/
theorem c4_counterexample :
    (TextParser.parseTextDocs "Use the api_key query parameter").spec.auth.type
      = "apiKey" ∧
    (TextParser.parseTextDocs "Use the api_key query parameter").spec.auth.headerName
      = some "api_key" ∧
    (TextParser.parseTextDocs "Use the api_key query parameter").spec.auth.headerName
      ≠ some "X-API-Key" :=
  ⟨rfl, rfl, by decide⟩

/-- C4 (amended): whenever an api-key cue is present and no bearer cue
precedes it, the text normalizer returns an apiKey scheme whose
`headerName` is the literal first-matched token of the alternation
`(x-api-key|api[_-]?key)` (case-preserving) — for the generic `api_key`
phrase the token itself, not `"X-API-Key"`: the default is dead code,
because the inner match always succeeds when the outer cue tested true. -/
theorem c4_amended (input : String)
    (hkey : TextParser.apiKeyCue input = true)
    (hbearer : TextParser.bearerCue input = false) :
    ∃ m, TextParser.apiKeyHeaderMatch input = some m ∧
      (TextParser.parseTextDocs input).spec.auth =
        { type := "apiKey", headerName := some m, queryParamName := none,
          scheme := none,
          description := some "API Key authentication (detected from docs)",
          flows := none } := by
  have hsome : (TextParser.apiKeyHeaderMatch input).isSome := by
    unfold TextParser.apiKeyHeaderMatch
    unfold TextParser.apiKeyCue at hkey
    simp only [Bool.or_eq_true] at hkey
    rcases hkey with h | h
    · simpa using scanFirst_header_isSome none input.data
        (Or.inl (by simpa using h))
    · simpa using scanFirst_header_isSome none input.data
        (Or.inr (by simpa using h))
  obtain ⟨m, hm⟩ := Option.isSome_iff_exists.mp hsome
  have hmne : m ≠ "" := by
    unfold TextParser.apiKeyHeaderMatch at hm
    cases hscan : TextParser.scanFirst (fun _ s =>
        match TextParser.matchXApiKeyAt s with
        | some (mm, _) => some mm
        | none => (TextParser.matchApiKeyAt s).map Prod.fst) none input.data with
    | none => rw [hscan] at hm; cases hm
    | some l =>
      rw [hscan] at hm
      cases hm
      have hl : l ≠ [] := by
        refine scanFirst_some_prop (P := fun a => a ≠ []) ?_ none input.data l hscan
        intro p s a ha
        cases hx : TextParser.matchXApiKeyAt s with
        | some q =>
          obtain ⟨mm, r⟩ := q
          rw [hx] at ha
          cases ha
          exact matchCI_ne_nil (by decide) hx
        | none =>
          rw [hx] at ha
          cases haa : TextParser.matchApiKeyAt s with
          | some q =>
            obtain ⟨mm, r⟩ := q
            rw [haa] at ha
            cases ha
            exact matchApiKeyAt_ne_nil haa
          | none =>
            rw [haa] at ha
            cases ha
      intro heq
      exact hl (congrArg String.data heq)
  refine ⟨m, hm, ?_⟩
  show (TextParser.extractAuth input).1 = _
  unfold TextParser.extractAuth
  rw [if_neg (by rw [hbearer]; exact Bool.false_ne_true), if_pos hkey]
  simp only [hm, strOr]
  rw [if_neg hmne]

/-- C4 witness: instantiated at an input carrying a literal `x-api-key`
token. -/
theorem c4_witness :
    TextParser.apiKeyCue "send the x-api-key header" = true ∧
    TextParser.bearerCue "send the x-api-key header" = false ∧
    ∃ m, TextParser.apiKeyHeaderMatch "send the x-api-key header" = some m ∧
      (TextParser.parseTextDocs "send the x-api-key header").spec.auth =
        { type := "apiKey", headerName := some m, queryParamName := none,
          scheme := none,
          description := some "API Key authentication (detected from docs)",
          flows := none } :=
  ⟨by decide, by decide,
   c4_amended "send the x-api-key header" (by decide) (by decide)⟩

/-! ## Claim C6 -/

end HelloAPI
